import Mathlib

/-!
# Verification of the BusTub storage-and-concurrency core

A shallow embedding, in Lean 4, of the code in `src/`:

* the B+ tree page routines (`b_plus_tree_leaf_page.cpp`,
  `b_plus_tree_internal_page.cpp`) and the tree-level operations
  (`b_plus_tree.cpp`: `Insert`, `Split`, `SplitLeaf`, `SplitInternal`,
  `SplitHeader`, `GetValue`, `Remove`, `Merge`, `MergeLeaf`,
  `MergeInternal`, `GetSibling`);
* the LRU-K replacer (`lru_k_replacer.cpp`);
* the buffer pool manager's `UnpinPage` (`buffer_pool_manager.cpp`);
* the lock manager (`lock_manager.cpp`).

Machine integers are modelled as `Nat`/`Int` (none of the verified paths
overflow), page ids as `Int` with `-1` for `INVALID_PAGE_ID`, and C++
maps/lists as Lean lists and total functions.  Keys and values of the
B+ tree are `Nat` (the comparator of the source is a total order with
`comp k1 k2 < 0 ↔ k1 < k2`, which `Nat`'s order realises).
-/

namespace BusTub

abbrev Key := Nat
abbrev Val := Nat
abbrev PageId := Int

def INVALID_PAGE_ID : PageId := -1

/-! ## B+ tree pages

Translated from `b_plus_tree_leaf_page.cpp` and
`b_plus_tree_internal_page.cpp`.  A page is its sorted entry array plus
its `max_size_`; leaves additionally carry `next_page_id_`.  The page's
`GetSize()` is the length of the entry list. -/

inductive BPTPage where
  | leaf (entries : List (Key × Val)) (maxSize : Nat) (next : PageId)
  | internal (entries : List (Key × PageId)) (maxSize : Nat)
  deriving Repr, DecidableEq

namespace BPTPage

def isLeafPage : BPTPage → Bool
  | .leaf _ _ _ => true
  | .internal _ _ => false

def size : BPTPage → Nat
  | .leaf es _ _ => es.length
  | .internal es _ => es.length

def maxSize : BPTPage → Nat
  | .leaf _ m _ => m
  | .internal _ m => m

end BPTPage

/-- Modelled from the spec: the common tree-page base class
(`b_plus_tree_page.h`/`.cpp`, absent from `src/`) supplies
`GetMinSize`.  §4.3 "Node sizing": "Min size = ⌈max/2⌉". -/
def minSizeOf (maxSize : Nat) : Nat := (maxSize + 1) / 2

/-- Modelled from the spec: `IsFull` of the missing tree-page base
class; §4.3: a page is "full" when size = max. -/
def pageIsFull (p : BPTPage) : Bool := p.size = p.maxSize

/-- Modelled from the spec: `UnderHalfFull` of the missing tree-page
base class; §4.3: "under-half" when size < min. -/
def pageUnderHalfFull (p : BPTPage) : Bool := p.size < minSizeOf p.maxSize

/-- Modelled from the spec: `OverHalfFull` of the missing tree-page
base class; §4.3: "over-half" when size > min. -/
def pageOverHalfFull (p : BPTPage) : Bool := minSizeOf p.maxSize < p.size

/-- Binary-search skeleton shared by `BPlusTreeLeafPage::LowerBound`
and `BPlusTreeInternalPage::UpperBound` over the key array `ks`;
`strict` selects the comparison (`<` for lower bound, `≤` for upper
bound).  The structural `fuel` only bounds the iteration count; the
interval `[left, right)` shrinks by at least one per step, so any
`fuel ≥ right - left` computes the same loop as the C++. -/
def binSearchAux (ks : List Key) (key : Key) (strict : Bool) :
    Nat → Nat → Nat → Nat
  | 0, left, _ => left
  | fuel + 1, left, right =>
    if left < right then
      let mid := (left + right) / 2
      if (if strict then ks.getD mid 0 < key else ks.getD mid 0 ≤ key) then
        binSearchAux ks key strict fuel (mid + 1) right
      else
        binSearchAux ks key strict fuel left mid
    else left

def binSearch (ks : List Key) (key : Key) (strict : Bool) (left right : Nat) : Nat :=
  binSearchAux ks key strict (right - left) left right

/-- `BPlusTreeLeafPage::LowerBound`: first index whose key is not less
than `key` (binary search from 0). -/
def leafLowerBound (es : List (Key × Val)) (key : Key) : Nat :=
  binSearch (es.map Prod.fst) key true 0 es.length

/-- `BPlusTreeInternalPage::UpperBound`: first index in `[1, size)`
whose key is greater than `key` (binary search starting at 1; the
first key of an internal page never takes part in comparisons). -/
def internalUpperBound (es : List (Key × PageId)) (key : Key) : Nat :=
  binSearch (es.map Prod.fst) key false 1 es.length

/-- `BPlusTreeLeafPage::HasValue`. -/
def leafHasValue (es : List (Key × Val)) (key : Key) : Bool :=
  let index := leafLowerBound es key
  index ≠ es.length && key = (es.getD index (0, 0)).1

/-- `BPlusTreeLeafPage::GetValue` (the out-vector gets at most one hit,
returned here as an `Option`). -/
def leafGetValue (es : List (Key × Val)) (key : Key) : Option Val :=
  let index := leafLowerBound es key
  if index = es.length ∨ key ≠ (es.getD index (0, 0)).1 then none
  else some (es.getD index (0, 0)).2

/-- `BPlusTreeLeafPage::Insert`: shift entries at `LowerBound` right by
one and write the pair there. -/
def leafInsertEntry (es : List (Key × Val)) (key : Key) (value : Val) : List (Key × Val) :=
  let index := leafLowerBound es key
  es.take index ++ (key, value) :: es.drop index

/-- `BPlusTreeLeafPage::Remove`: shift entries after `LowerBound` left
by one and decrement the size (when `LowerBound` is past the last
entry this truncates the last entry, exactly as the C++ does). -/
def leafRemoveEntry (es : List (Key × Val)) (key : Key) : List (Key × Val) :=
  let index := leafLowerBound es key
  (es.take index ++ es.drop (index + 1)).take (es.length - 1)

/-- `BPlusTreeLeafPage::MoveRange`: shift the destination's tail at
`otherStart` right, copy `[start, stop)` of the source in, close the
gap in the source.  Faithful for `otherStart ≤ other.length` (the only
way the tree code calls it). -/
def leafMoveRange (src dst : List (Key × Val)) (start stop otherStart : Nat) :
    List (Key × Val) × List (Key × Val) :=
  (src.take start ++ src.drop stop,
   dst.take otherStart ++ (src.drop start).take (stop - start) ++ dst.drop otherStart)

/-- `BPlusTreeInternalPage::Insert` (insertion point by `UpperBound`). -/
def internalInsertEntry (es : List (Key × PageId)) (key : Key) (value : PageId) :
    List (Key × PageId) :=
  let index := internalUpperBound es key
  es.take index ++ (key, value) :: es.drop index

/-- `BPlusTreeInternalPage::Remove`: removes the entry at
`UpperBound(key) - 1`. -/
def internalRemoveEntry (es : List (Key × PageId)) (key : Key) : List (Key × PageId) :=
  let index := internalUpperBound es key - 1
  (es.take index ++ es.drop (index + 1)).take (es.length - 1)

/-- `BPlusTreeInternalPage::RemoveAt`. -/
def internalRemoveAt (es : List (Key × PageId)) (index : Nat) : List (Key × PageId) :=
  (es.take index ++ es.drop (index + 1)).take (es.length - 1)

/-- `BPlusTreeInternalPage::GetValue`: child pointer at
`UpperBound(key) - 1`. -/
def internalGetValue (es : List (Key × PageId)) (key : Key) : PageId :=
  (es.getD (internalUpperBound es key - 1) (0, 0)).2

/-- `BPlusTreeInternalPage::MoveRange`: plain copy (no backward shift in
the internal version), then `SetSize(start)` on the source and
`SetSize(otherStart + stop - start)` on the destination.  Faithful for
`otherStart ≤ other.length`. -/
def internalMoveRange (src dst : List (Key × PageId)) (start stop otherStart : Nat) :
    List (Key × PageId) × List (Key × PageId) :=
  (src.take start,
   dst.take otherStart ++ (src.drop start).take (stop - start))

/-- `SetKeyValueAt`: overwrite in place, growing the size to
`index + 1` when `index = size` (the only out-of-range index the tree
code ever passes). -/
def setKeyValueAt (es : List (Key × PageId)) (index : Nat) (key : Key) (value : PageId) :
    List (Key × PageId) :=
  if index < es.length then es.set index (key, value) else es ++ [(key, value)]

/-- `SetKeyAt` (key component only, same size rule). -/
def setKeyAt (es : List (Key × PageId)) (index : Nat) (key : Key) : List (Key × PageId) :=
  if h : index < es.length then es.set index (key, (es.get ⟨index, h⟩).2)
  else es ++ [(key, 0)]

/-- `SetValueAt` (value component only, same size rule). -/
def setValueAt (es : List (Key × PageId)) (index : Nat) (value : PageId) :
    List (Key × PageId) :=
  if h : index < es.length then es.set index ((es.get ⟨index, h⟩).1, value)
  else es ++ [(0, value)]

/-! ## The B+ tree

Translated from `b_plus_tree.cpp`.  The header page (`root_page_id_`,
`tree_depth_`, declared in `b_plus_tree.h`) is modelled by the
`rootPageId`/`treeDepth` fields; the buffer pool behind
`NewPageGuarded` is modelled by the allocation counter `nextFree`
(`AllocatePage` hands out sequential ids).  Page id `0` is the header
page's own id (`header_page_id_`); tree pages live at ids `≥ 1`. -/

def junkPage : BPTPage := .leaf [] 0 (-1)

structure BPTree where
  pages : PageId → BPTPage
  rootPageId : PageId
  treeDepth : Int
  nextFree : PageId
  leafMax : Nat
  internalMax : Nat

def updatePage (t : BPTree) (pid : PageId) (p : BPTPage) : BPTree :=
  { t with pages := fun q => if q = pid then p else t.pages q }

/-- `BPlusTree::BPlusTree`: the constructor immediately allocates a new
page as the root, stores its id in the header, and `Init`s it as an
empty leaf.  `tree_depth_` is never written, so the header keeps
whatever the page memory held (`d0`). -/
def mkTree (leafMax internalMax : Nat) (d0 : Int) : BPTree :=
  { pages := fun p => if p = 1 then .leaf [] leafMax (-1) else junkPage
    rootPageId := 1
    treeDepth := d0
    nextFree := 2
    leafMax := leafMax
    internalMax := internalMax }

/-- The descent loop shared by `GetValue` / `Insert` / `Remove`:
`while (!page->IsLeafPage()) page := page->GetValue(key)`.  `fuel`
bounds the number of levels; `none` means the descent did not reach a
leaf within `fuel` steps. -/
def findLeaf (t : BPTree) (key : Key) : Nat → PageId → Option PageId
  | 0, _ => none
  | fuel + 1, pid =>
    match t.pages pid with
    | .leaf _ _ _ => some pid
    | .internal es _ => findLeaf t key fuel (internalGetValue es key)

/-- `BPlusTree::GetValue`. -/
def treeGetValue (t : BPTree) (key : Key) (fuel : Nat) : Option (Option Val) :=
  match findLeaf t key fuel t.rootPageId with
  | none => none
  | some lid =>
    match t.pages lid with
    | .leaf es _ _ => some (leafGetValue es key)
    | .internal _ _ => none

/-- An entry of the `write_set` deque in `Split`/`Merge`: the header
page's guard or a tree page's guard. -/
inductive WSEntry where
  | header
  | page (pid : PageId)
  deriving Repr, DecidableEq

/-- The downward phase of `BPlusTree::Split`: walk to the leaf keeping a
write set; whenever the current internal page is not full, drop every
guard above it (`while (write_set.size() > 1) pop_front()` keeps only
the current page). -/
def buildSplitWS (t : BPTree) (key : Key) :
    Nat → PageId → List WSEntry → Option (List WSEntry × PageId)
  | 0, _, _ => none
  | fuel + 1, pid, ws =>
    match t.pages pid with
    | .leaf _ _ _ => some (ws, pid)
    | .internal es m =>
      let ws' := if pageIsFull (.internal es m) then ws else [WSEntry.page pid]
      let child := internalGetValue es key
      buildSplitWS t key fuel child (ws' ++ [.page child])

/-- `BPlusTree::SplitLeaf` (one step of the upward unwind): a full leaf
donates its upper half `[GetMinSize(), GetMaxSize())` to a freshly
allocated leaf, which is linked into the `next_page_id_` chain; the
context receives the new leaf's first key and id. -/
def splitLeafStep (t : BPTree) (pid : PageId) (es : List (Key × Val)) (m : Nat)
    (nxt : PageId) (ctx : Key × PageId) : BPTree × (Key × PageId) :=
  if pageIsFull (.leaf es m nxt) then
    let newPid := t.nextFree
    let moved := leafMoveRange es [] (minSizeOf m) m 0
    let t' := updatePage (updatePage t pid (.leaf moved.1 m newPid))
                newPid (.leaf moved.2 m nxt)
    ({ t' with nextFree := t.nextFree + 1 }, ((moved.2.getD 0 (0, 0)).1, newPid))
  else (t, ctx)

/-- `BPlusTree::SplitInternal`: a non-full internal page absorbs the
(key, page id) from the context; a full one splits around
`mid = GetMinSize()`, with the three insert-position cases of the
source. -/
def splitInternalStep (t : BPTree) (pid : PageId) (es : List (Key × PageId)) (m : Nat)
    (ctx : Key × PageId) : BPTree × (Key × PageId) :=
  if ¬ pageIsFull (.internal es m) then
    (updatePage t pid (.internal (internalInsertEntry es ctx.1 ctx.2) m), ctx)
  else
    let newPid := t.nextFree
    let mid := minSizeOf m
    let pos := internalUpperBound es ctx.1
    let fresh : List (Key × PageId) := [(0, 0)]
    let pair :=
      if pos < mid then
        let moved := internalMoveRange es fresh (mid - 1) es.length 0
        (internalInsertEntry moved.1 ctx.1 ctx.2, moved.2)
      else if pos = mid then
        let moved := internalMoveRange es fresh mid es.length 1
        (moved.1, setKeyValueAt moved.2 0 ctx.1 ctx.2)
      else
        let moved := internalMoveRange es fresh mid es.length 0
        (moved.1, internalInsertEntry moved.2 ctx.1 ctx.2)
    let t' := updatePage (updatePage t pid (.internal pair.1 m)) newPid (.internal pair.2 m)
    ({ t' with nextFree := t.nextFree + 1 }, ((pair.2.getD 0 (0, 0)).1, newPid))

/-- `BPlusTree::SplitHeader`: allocate a new internal root holding the
old root at index 0 and `(ctx.new_key_, ctx.new_page_id_)` at index 1,
and store its id into `root_page_id_`.  (`tree_depth_` is not
touched.) -/
def splitHeaderStep (t : BPTree) (ctx : Key × PageId) : BPTree × (Key × PageId) :=
  let newRootPid := t.nextFree
  let es := setKeyValueAt (setValueAt [(0, 0)] 0 t.rootPageId) 1 ctx.1 ctx.2
  let t' := updatePage t newRootPid (.internal es t.internalMax)
  ({ t' with rootPageId := newRootPid, nextFree := t.nextFree + 1 }, ctx)

/-- One step of the upward unwind in `Split`, dispatching on the page
behind the write guard exactly as the loop body does. -/
def splitStep (t : BPTree) (e : WSEntry) (ctx : Key × PageId) : BPTree × (Key × PageId) :=
  match e with
  | .header => splitHeaderStep t ctx
  | .page pid =>
    match t.pages pid with
    | .leaf es m nxt => splitLeafStep t pid es m nxt ctx
    | .internal es m => splitInternalStep t pid es m ctx

/-- The `while (!write_set.empty())` unwind of `Split`, popping from the
back; `rws` is the write set in back-to-front order. -/
def splitUnwind : BPTree → List WSEntry → (Key × PageId) → BPTree
  | t, [], _ => t
  | t, e :: rest, ctx =>
    let st := splitStep t e ctx
    splitUnwind st.1 rest st.2

/-- `BPlusTree::Split`: re-descend from the header taking write guards,
bail out if the leaf is no longer full, otherwise unwind.  The
`SplitContext ctx{}` value-initialisation is the pair `(0, 0)`. -/
def treeSplit (t : BPTree) (key : Key) (fuel : Nat) : Option BPTree :=
  match buildSplitWS t key fuel t.rootPageId [.header, .page t.rootPageId] with
  | none => none
  | some (ws, lid) =>
    match t.pages lid with
    | .internal _ _ => none
    | .leaf es m nxt =>
      if pageIsFull (.leaf es m nxt) then some (splitUnwind t ws.reverse (0, 0))
      else some t

/-- `BPlusTree::Insert`: read-latched descent, duplicate check, insert
into the leaf, then `Split` if the leaf became full.  The "another
thread splitting, retry" branch (`IsFull` before the insert) never
terminates in a single-threaded execution and is modelled as `none`. -/
def treeInsert (t : BPTree) (key : Key) (value : Val) (fuel : Nat) :
    Option (Bool × BPTree) :=
  match findLeaf t key fuel t.rootPageId with
  | none => none
  | some lid =>
    match t.pages lid with
    | .internal _ _ => none
    | .leaf es m nxt =>
      if leafHasValue es key then some (false, t)
      else if pageIsFull (.leaf es m nxt) then none
      else
        let es' := leafInsertEntry es key value
        let t1 := updatePage t lid (.leaf es' m nxt)
        if pageIsFull (.leaf es' m nxt) then
          (treeSplit t1 key fuel).map (fun t2 => (true, t2))
        else some (true, t1)

/-! ### Remove / Merge

Translated from `BPlusTree::Remove`, `Merge`, `MergeLeaf`,
`MergeInternal` and `GetSibling`.  The `MergeContext` class definition
is absent from the sources (the declaration in `b_plus_tree.h` belongs
to an older revision); its four fields `key_`, `parent_key_`,
`page_id_`, `op_type_` and the enum constants `Remove`, `UpdateKey`,
`UpdateRoot`, `Finish` are reconstructed from every use in
`b_plus_tree.cpp`, and the aggregate initialiser
`MergeContext ctx{{}, {}, {}, MergeContext::Remove}` value-initialises
`page_id_` to `0`. -/

inductive MOp where
  | rm
  | updateKey
  | updateRoot
  | finish
  deriving Repr, DecidableEq

structure MCtx where
  key : Key
  parentKey : Key
  pageId : PageId
  op : MOp
  deriving Repr, DecidableEq

/-- `BPlusTreeLeafPage::SetKeyValueAt` and `RemoveAt` are declared in
`b_plus_tree_leaf_page.h` but their bodies are not in the sources.
Modelled from the spec: the leaf entry array is a sorted (key, value)
array, so writing at `index = size` appends and `RemoveAt` closes the
gap, mirroring the internal-page versions. -/
def leafSetKeyValueAt (es : List (Key × Val)) (index : Nat) (key : Key) (value : Val) :
    List (Key × Val) :=
  if index < es.length then es.set index (key, value) else es ++ [(key, value)]

def leafRemoveAt (es : List (Key × Val)) (index : Nat) : List (Key × Val) :=
  (es.take index ++ es.drop (index + 1)).take (es.length - 1)

/-- `BPlusTree::GetSibling`: pick the sibling of the child that covers
`key` — the only one at the edges, otherwise the larger of the two. -/
def getSibling (t : BPTree) (key : Key) (pes : List (Key × PageId)) : PageId × Bool :=
  let index := internalUpperBound pes key - 1
  if index = pes.length - 1 then ((pes.getD (index - 1) (0, 0)).2, true)
  else if index = 0 then ((pes.getD (index + 1) (0, 0)).2, false)
  else
    let leftPid := (pes.getD (index - 1) (0, 0)).2
    let rightPid := (pes.getD (index + 1) (0, 0)).2
    if (t.pages leftPid).size > (t.pages rightPid).size then (leftPid, true)
    else (rightPid, false)

/-- `BPlusTree::MergeLeaf`: redistribute from an over-half-full side
(one entry moves, the context turns into an `UpdateKey` for the
parent), otherwise merge the right leaf into the left one and unlink
it from the chain.  After the merging `MoveRange` the right page's
size is 0 but `KeyAt(0)` still reads the moved-out first entry, which
is what the source stores into `ctx->key_`. -/
def mergeLeafStep (t : BPTree) (leftPid rightPid : PageId) (ctx : MCtx) :
    BPTree × MCtx :=
  match t.pages leftPid, t.pages rightPid with
  | .leaf les lm lnxt, .leaf res rm rnxt =>
    if pageOverHalfFull (.leaf les lm lnxt) then
      let res' := leafInsertEntry res (les.getD (les.length - 1) (0, 0)).1
                    (les.getD (les.length - 1) (0, 0)).2
      let t' := updatePage (updatePage t rightPid (.leaf res' rm rnxt))
                  leftPid (.leaf (les.take (les.length - 1)) lm lnxt)
      (t', { ctx with op := .updateKey, key := (res'.getD 0 (0, 0)).1 })
    else if pageOverHalfFull (.leaf res rm rnxt) then
      let les' := leafSetKeyValueAt les les.length (res.getD 0 (0, 0)).1 (res.getD 0 (0, 0)).2
      let res' := leafRemoveAt res 0
      let t' := updatePage (updatePage t leftPid (.leaf les' lm lnxt))
                  rightPid (.leaf res' rm rnxt)
      (t', { ctx with op := .updateKey, key := (res'.getD 0 (0, 0)).1 })
    else
      let moved := leafMoveRange res les 0 res.length les.length
      let t' := updatePage (updatePage t leftPid (.leaf moved.2 lm rnxt))
                  rightPid (.leaf moved.1 rm rnxt)
      (t', { ctx with op := .rm, key := (res.getD 0 (0, 0)).1 })
  | _, _ => (t, ctx)

/-- `BPlusTree::MergeInternal` with a sibling (the `right_page !=
nullptr` half).  Merging pulls `ctx->parent_key_` down as the
connecting key via `SetKeyAt(0, …)` before the `MoveRange`. -/
def mergeInternalStep (t : BPTree) (leftPid rightPid : PageId) (ctx : MCtx) :
    BPTree × MCtx :=
  match t.pages leftPid, t.pages rightPid with
  | .internal les lm, .internal res rm =>
    if pageOverHalfFull (.internal les lm) then
      let res' := internalInsertEntry res (les.getD (les.length - 1) (0, 0)).1
                    (les.getD (les.length - 1) (0, 0)).2
      let t' := updatePage (updatePage t rightPid (.internal res' rm))
                  leftPid (.internal (les.take (les.length - 1)) lm)
      (t', { ctx with op := .updateKey, key := (res'.getD 0 (0, 0)).1 })
    else if pageOverHalfFull (.internal res rm) then
      let les' := setKeyValueAt les les.length ctx.parentKey (res.getD 0 (0, 0)).2
      let res' := internalRemoveAt res 0
      let t' := updatePage (updatePage t leftPid (.internal les' lm))
                  rightPid (.internal res' rm)
      (t', { ctx with op := .updateKey, key := (res'.getD 0 (0, 0)).1 })
    else
      let res0 := setKeyAt res 0 ctx.parentKey
      let moved := internalMoveRange res0 les 0 res0.length les.length
      let t' := updatePage (updatePage t leftPid (.internal moved.2 lm))
                  rightPid (.internal moved.1 rm)
      (t', { ctx with op := .rm, key := ctx.parentKey })
  | _, _ => (t, ctx)

/-- `BPlusTree::MergeInternal` with `right_page == nullptr`: either the
pending `UpdateKey` is applied and the unwind finishes, or the pending
key is removed; a root shrunk to a single child turns the context into
`UpdateRoot` carrying that child's id.  (The guard casts the page to
`InternalPage`; a leaf here is unreachable, since `Remove` never calls
`Merge` on a root leaf.) -/
def mergeSolo (t : BPTree) (pid : PageId) (ctx : MCtx) : BPTree × MCtx :=
  match t.pages pid with
  | .internal es m =>
    if ctx.op = .updateKey then
      let es' := setKeyAt es (internalUpperBound es ctx.key - 1) ctx.key
      (updatePage t pid (.internal es' m), { ctx with op := .finish })
    else
      let es' := internalRemoveEntry es ctx.key
      let t' := updatePage t pid (.internal es' m)
      if es'.length = 1 then
        (t', { ctx with pageId := (es'.getD 0 (0, 0)).2, op := .updateRoot })
      else (t', ctx)
  | .leaf _ _ _ => (t, ctx)

/-- One iteration of the `Merge` unwind loop.  `rest` is the remainder
of the write set above the current guard (so `rest = []` is
`write_set.size() <= 1` and `rest = [header]` is the
"size 2 and front is the header" case); the parent guard used for
sibling selection is `rest`'s first element.  `DeletePage` on the
emptied sibling only returns the frame to the buffer pool and is not
part of the tree state. -/
def mergeStep (t : BPTree) (key : Key) (e : WSEntry) (rest : List WSEntry)
    (ctx : MCtx) : BPTree × MCtx :=
  match e with
  | .header => ({ t with rootPageId := ctx.pageId }, ctx)
  | .page pid =>
    if ctx.op = .updateKey ∨ rest = [] ∨ rest = [WSEntry.header] then
      mergeSolo t pid ctx
    else
      match rest with
      | WSEntry.page parentPid :: _ =>
        match t.pages parentPid with
        | .internal pes _ =>
          let sib := getSibling t key pes
          let parentKey :=
            if sib.2 then (pes.getD (internalUpperBound pes key - 1) (0, 0)).1
            else (pes.getD (internalUpperBound pes key) (0, 0)).1
          let leftPid := if sib.2 then sib.1 else pid
          let rightPid := if sib.2 then pid else sib.1
          let ctx1 := { ctx with parentKey := parentKey }
          if (t.pages pid).isLeafPage then mergeLeafStep t leftPid rightPid ctx1
          else mergeInternalStep t leftPid rightPid ctx1
        | .leaf _ _ _ => (t, ctx)
      | _ => (t, ctx)

/-- The `while (!write_set.empty() && ctx.op_type_ != Finish)` unwind of
`Merge`, popping from the back; `rws` is the write set back-to-front. -/
def mergeUnwind : BPTree → Key → List WSEntry → MCtx → BPTree
  | t, _, [], _ => t
  | t, key, e :: rest, ctx =>
    if ctx.op = .finish then t
    else
      let st := mergeStep t key e rest ctx
      mergeUnwind st.1 key rest st.2

/-- The downward phase of `BPlusTree::Merge`: like the split descent but
ancestors are dropped when the current internal page is over half
full. -/
def buildMergeWS (t : BPTree) (key : Key) :
    Nat → PageId → List WSEntry → Option (List WSEntry × PageId)
  | 0, _, _ => none
  | fuel + 1, pid, ws =>
    match t.pages pid with
    | .leaf _ _ _ => some (ws, pid)
    | .internal es m =>
      let ws' := if pageOverHalfFull (.internal es m) then [WSEntry.page pid] else ws
      let child := internalGetValue es key
      buildMergeWS t key fuel child (ws' ++ [.page child])

/-- `BPlusTree::Merge`. -/
def treeMerge (t : BPTree) (key : Key) (fuel : Nat) : Option BPTree :=
  match buildMergeWS t key fuel t.rootPageId [.header, .page t.rootPageId] with
  | none => none
  | some (ws, lid) =>
    match t.pages lid with
    | .internal _ _ => none
    | .leaf es m nxt =>
      if pageUnderHalfFull (.leaf es m nxt) then
        some (mergeUnwind t key ws.reverse ⟨0, 0, 0, .rm⟩)
      else some t

/-- `BPlusTree::Remove`: return early on an empty root or an absent
key, remove from the leaf, and call `Merge` if a non-root leaf dropped
under half full.  The "another thread merging, retry" branch never
terminates in a single-threaded execution and is modelled as `none`. -/
def treeRemove (t : BPTree) (key : Key) (fuel : Nat) : Option BPTree :=
  if (t.pages t.rootPageId).size = 0 then some t
  else
    match findLeaf t key fuel t.rootPageId with
    | none => none
    | some lid =>
      match t.pages lid with
      | .internal _ _ => none
      | .leaf es m nxt =>
        if ¬ leafHasValue es key then some t
        else if lid ≠ t.rootPageId ∧ pageUnderHalfFull (.leaf es m nxt) then none
        else
          let es' := leafRemoveEntry es key
          let t1 := updatePage t lid (.leaf es' m nxt)
          if lid ≠ t.rootPageId ∧ pageUnderHalfFull (.leaf es' m nxt) then
            treeMerge t1 key fuel
          else some t1

end BusTub

namespace BusTub

/-! ### Page-level sanity examples (concrete executions) -/

example : leafLowerBound [(1, 10), (3, 30), (5, 50)] 3 = 1 := by decide

example : leafLowerBound [(1, 10), (3, 30), (5, 50)] 4 = 2 := by decide

example : leafHasValue [(1, 10), (3, 30), (5, 50)] 3 = true := by decide

example : leafHasValue [(1, 10), (3, 30), (5, 50)] 4 = false := by decide

example : leafInsertEntry [(1, 10), (5, 50)] 3 30 = [(1, 10), (3, 30), (5, 50)] := by decide

example : leafRemoveEntry [(1, 10), (3, 30), (5, 50)] 3 = [(1, 10), (5, 50)] := by decide

example : internalUpperBound [(0, 3), (20, 4), (40, 5)] 30 = 2 := by decide

example : internalGetValue [(0, 3), (20, 4), (40, 5)] 30 = 4 := by decide

example : internalGetValue [(0, 3), (20, 4), (40, 5)] 10 = 3 := by decide

example : internalInsertEntry [(0, 3), (20, 4)] 30 7 = [(0, 3), (20, 4), (30, 7)] := by decide

/-! ### Tree-level sanity examples -/

/-- Run a sequence of inserts (as `InsertFromFile` does, one
`Insert` per key). -/
def insertSeq (t : BPTree) (kvs : List (Key × Val)) (fuel : Nat) : Option BPTree :=
  kvs.foldlM (fun s kv => (treeInsert s kv.1 kv.2 fuel).map Prod.snd) t

example :
    (insertSeq (mkTree 3 3 0) [(1, 10), (10, 100), (20, 200), (30, 300)] 9).map
      (fun t => (t.rootPageId, t.nextFree, t.pages 3, t.pages 1, t.pages 2)) =
    some (3, 4, .internal [(0, 1), (20, 2)] 3,
          .leaf [(1, 10), (10, 100)] 3 2, .leaf [(20, 200), (30, 300)] 3 (-1)) := by decide

example :
    (insertSeq (mkTree 3 3 0) [(1, 10), (10, 100), (20, 200), (30, 300)] 9).map
      (fun t => treeGetValue t 20 9) = some (some (some 200)) := by decide

example :
    ((insertSeq (mkTree 4 5 0) [(10, 1), (20, 2), (30, 3), (40, 4), (50, 5), (60, 6)] 9)).map
      (fun t => (t.rootPageId, t.nextFree, t.pages 3, t.pages 1, t.pages 2, t.pages 4)) =
    some (3, 5, .internal [(0, 1), (30, 2), (50, 4)] 5,
          .leaf [(10, 1), (20, 2)] 4 2, .leaf [(30, 3), (40, 4)] 4 4,
          .leaf [(50, 5), (60, 6)] 4 (-1)) := by decide

example :
    ((insertSeq (mkTree 4 5 0) [(10, 1), (20, 2), (30, 3), (40, 4), (50, 5), (60, 6)] 9).bind
        (fun t => treeRemove t 40 9)).map
      (fun t => (t.rootPageId, t.pages 2, t.pages 3)) =
    some (0, .leaf [(30, 3), (50, 5), (60, 6)] 4 (-1), .internal [(0, 1), (30, 2)] 5) := by decide

/-! ## Claim theorems: B+ tree -/

theorem leafHasValue_some (es : List (Key × Val)) (key : Key)
    (h : leafHasValue es key = true) : ∃ v, leafGetValue es key = some v := by
  simp only [leafHasValue, Bool.and_eq_true, ne_eq, decide_eq_true_eq] at h
  refine ⟨(es.getD (leafLowerBound es key) (0, 0)).2, ?_⟩
  have hcond : ¬(leafLowerBound es key = es.length ∨
      key ≠ (es.getD (leafLowerBound es key) (0, 0)).1) := by
    push_neg
    exact ⟨h.1, h.2⟩
  simp only [leafGetValue, if_neg hcond]

/-- A shared concrete tree (leaf max 3, internal max 3): an internal
root at page 3 over two leaves, the state produced by inserting
1, 10, 20, 30 into a fresh tree (checked by the `insertSeq` example
above). -/
def bptExample : BPTree :=
  { pages := fun p =>
      if p = 3 then .internal [(0, 1), (20, 2)] 3
      else if p = 2 then .leaf [(20, 200), (30, 300)] 3 (-1)
      else if p = 1 then .leaf [(1, 10), (10, 100)] 3 2
      else junkPage
    rootPageId := 3
    treeDepth := 0
    nextFree := 4
    leafMax := 3
    internalMax := 3 }

/-- C5: for a key already present in the leaf the descent reaches,
`Insert` returns false and the tree value is returned completely
unchanged (the duplicate check `HasValue` fires before any write), so
a later `GetValue` still returns the originally stored value. -/
theorem c5_duplicate_insert_unchanged (t : BPTree) (key : Key) (value : Val) (fuel : Nat)
    (lid : PageId) (es : List (Key × Val)) (m : Nat) (nxt : PageId)
    (hfind : findLeaf t key fuel t.rootPageId = some lid)
    (hleaf : t.pages lid = .leaf es m nxt)
    (hdup : leafHasValue es key = true) :
    treeInsert t key value fuel = some (false, t) ∧
    ∃ v, treeGetValue t key fuel = some (some v) := by
  obtain ⟨v, hv⟩ := leafHasValue_some es key hdup
  constructor
  · simp only [treeInsert, hfind]
    rw [hleaf]
    simp [hdup]
  · refine ⟨v, ?_⟩
    simp only [treeGetValue, hfind]
    rw [hleaf]
    simp [hv]

/-- Witness for C5: inserting the already-present key 20 into the
concrete tree returns false and the identical tree. -/
theorem c5_witness :
    treeInsert bptExample 20 999 9 = some (false, bptExample) ∧
    ∃ v, treeGetValue bptExample 20 9 = some (some v) :=
  c5_duplicate_insert_unchanged bptExample 20 999 9 2 [(20, 200), (30, 300)] 3 (-1)
    (by decide) (by decide) (by decide)

/-- C7 counterexample: insert 1, 2 into a fresh tree whose header holds
tree depth 7, then insert 3, which fills the root leaf and propagates
the split to the header.  A new internal root with the two children
(old root first, new sibling second, keyed by the promoted key 3) is
installed at the freshly allocated page 3 — but the tree depth stored
in the header stays 7 instead of being incremented: `SplitHeader`
never writes `tree_depth_` (nor does the constructor initialise it). -/
theorem c7_counterexample_depth_not_incremented :
    ((insertSeq (mkTree 3 4 7) [(1, 10), (2, 20)] 9).bind
        (fun t => treeInsert t 3 30 9)).map
      (fun r => (r.1, r.2.treeDepth, r.2.rootPageId, r.2.pages 3, r.2.pages 1, r.2.pages 2)) =
    some (true, 7, 3, .internal [(0, 1), (3, 2)] 4,
          .leaf [(1, 10), (2, 20)] 3 2, .leaf [(3, 30)] 3 (-1)) := by decide

/-- C7 amended: when the split propagation reaches the header (here,
splitting a full root leaf), `SplitHeader` allocates exactly one new
internal page holding exactly two children — the old root at index 0
and the newly created sibling at index 1, keyed by the promoted
separator key — and stores the new page's id into the header's
`root_page_id_`; the tree depth stored in the header is *not*
incremented (it is never written at all). -/
theorem c7_amended_root_split (t : BPTree) (key : Key) (fuel : Nat)
    (es : List (Key × Val)) (m : Nat) (nxt : PageId)
    (hroot : t.pages t.rootPageId = .leaf es m nxt)
    (hfull : es.length = m)
    (hlt : t.rootPageId < t.nextFree) :
    (treeSplit t key (fuel + 1)).map
        (fun t' => (t'.rootPageId, t'.nextFree, t'.treeDepth,
                    t'.pages (t.nextFree + 1), t'.pages t.nextFree,
                    t'.pages t.rootPageId)) =
      some (t.nextFree + 1, t.nextFree + 2, t.treeDepth,
            .internal [(0, t.rootPageId),
                       (((es.drop (minSizeOf m)).getD 0 (0, 0)).1, t.nextFree)] t.internalMax,
            .leaf (es.drop (minSizeOf m)) m nxt,
            .leaf (es.take (minSizeOf m)) m t.nextFree) := by
  have h1 : t.rootPageId ≠ t.nextFree := ne_of_lt hlt
  have h2 : t.rootPageId ≠ t.nextFree + 1 := ne_of_lt (lt_trans hlt (lt_add_one _))
  have h3 : t.nextFree ≠ t.nextFree + 1 := ne_of_lt (lt_add_one _)
  have h4 : (t.nextFree + 1 : Int) ≠ t.nextFree := (lt_add_one _).ne'
  have hfull' : pageIsFull (.leaf es m nxt) = true := by
    simp [pageIsFull, BPTPage.size, BPTPage.maxSize, hfull]
  have hbuild : buildSplitWS t key (fuel + 1) t.rootPageId
      [.header, .page t.rootPageId] = some ([.header, .page t.rootPageId], t.rootPageId) := by
    unfold buildSplitWS; rw [hroot]
  have hdropmoved : (es.drop (minSizeOf m)).take (m - minSizeOf m) = es.drop (minSizeOf m) := by
    apply List.take_of_length_le; simp [hfull]
  have hdropall : es.drop m = [] := by rw [← hfull]; exact List.drop_length es
  simp only [treeSplit, hbuild]
  rw [hroot]
  simp only [hfull', if_true, List.reverse_cons, List.reverse_nil, List.nil_append,
    List.cons_append]
  simp only [splitUnwind, splitStep]
  rw [hroot]
  simp only [splitLeafStep, hfull', if_true, leafMoveRange, hdropmoved, hdropall,
    List.append_nil, List.nil_append, List.drop_zero, splitHeaderStep]
  simp only [updatePage, setValueAt, setKeyValueAt]
  simp [h1, h2, h3, h4, add_assoc]

/-- A tree whose root is a full leaf, with header depth 7 (shared input
of the C7 witness). -/
def fullRootLeafTree : BPTree :=
  { pages := fun p => if p = 1 then .leaf [(1, 10), (2, 20), (3, 30)] 3 (-1) else junkPage
    rootPageId := 1
    treeDepth := 7
    nextFree := 2
    leafMax := 3
    internalMax := 4 }

/-- Witness for C7: the full root leaf `[(1,10),(2,20),(3,30)]` (max 3)
at page 1, with header depth 7; the split installs the internal root
at page 3 and leaves the depth at 7. -/
theorem c7_witness :
    (treeSplit fullRootLeafTree 3 1).map
        (fun t' => (t'.rootPageId, t'.nextFree, t'.treeDepth,
                    t'.pages (fullRootLeafTree.nextFree + 1),
                    t'.pages fullRootLeafTree.nextFree,
                    t'.pages fullRootLeafTree.rootPageId)) =
      some (fullRootLeafTree.nextFree + 1, fullRootLeafTree.nextFree + 2,
            fullRootLeafTree.treeDepth,
            .internal [(0, fullRootLeafTree.rootPageId),
                       ((([(1, 10), (2, 20), (3, 30)].drop (minSizeOf 3)).getD 0 (0, 0)).1,
                        fullRootLeafTree.nextFree)] fullRootLeafTree.internalMax,
            .leaf ([(1, 10), (2, 20), (3, 30)].drop (minSizeOf 3)) 3 (-1),
            .leaf ([(1, 10), (2, 20), (3, 30)].take (minSizeOf 3)) 3
              fullRootLeafTree.nextFree) :=
  c7_amended_root_split fullRootLeafTree 3 0 [(1, 10), (2, 20), (3, 30)] 3 (-1)
    (by decide) (by decide) (by decide)

/-- C1 counterexample: starting from the tree built by inserting
1, 10, 20, 30 (leaf max 3, internal max 3; root page 3 over leaves
1 and 2), inserting 40 fills leaf 2.  Leaf 2's immediate sibling —
leaf 1, reached through the parent's child pointers — holds 2 < 3
entries, so it is *not* full; the claim therefore demands that entries
be shifted to the sibling, one separator key be updated, and no page
be allocated.  Instead the code allocates a new page (`nextFree` grows
from 4 to 5), leaves the sibling byte-for-byte unchanged, and gives
the parent a third child (size 2 → 3): `Split` never inspects
siblings on the insert path. -/
theorem c1_counterexample_no_redistribution :
    (insertSeq (mkTree 3 3 0) [(1, 10), (10, 100), (20, 200), (30, 300)] 9).map
        (fun t => (t.nextFree, (t.pages 1).size, (t.pages 1).maxSize,
                   (t.pages t.rootPageId).size)) = some (4, 2, 3, 2) ∧
    ((insertSeq (mkTree 3 3 0) [(1, 10), (10, 100), (20, 200), (30, 300)] 9).bind
        (fun t => treeInsert t 40 400 9)).map
        (fun r => (r.1, r.2.nextFree, (r.2.pages r.2.rootPageId).size, r.2.pages 1)) =
      some (true, 5, 3, .leaf [(1, 10), (10, 100)] 3 2) := by decide

/-- C1 amended: when an insert fills a leaf, no redistribution with a
sibling is ever attempted.  With the parent not full, exactly one new
page is allocated, the leaf's upper half `[GetMinSize(), GetMaxSize())`
moves to it, the new leaf is linked into the chain after the old one,
the parent absorbs the promoted separator key with the new page id as
one additional child, and every other page — in particular any
non-full sibling — is left unchanged. -/
theorem c1_amended_split_always_allocates (t : BPTree) (key : Key) (fuel : Nat)
    (res : List (Key × PageId)) (mi : Nat) (lid : PageId)
    (es : List (Key × Val)) (m : Nat) (nxt : PageId)
    (hroot : t.pages t.rootPageId = .internal res mi)
    (hnotfull : res.length ≠ mi)
    (hchild : internalGetValue res key = lid)
    (hleaf : t.pages lid = .leaf es m nxt)
    (hfull : es.length = m)
    (hne1 : lid ≠ t.rootPageId)
    (hlt1 : t.rootPageId < t.nextFree)
    (hlt2 : lid < t.nextFree) :
    (treeSplit t key (fuel + 2)).map
        (fun t' => (t'.rootPageId, t'.nextFree, t'.pages t.nextFree, t'.pages lid,
                    t'.pages t.rootPageId)) =
      some (t.rootPageId, t.nextFree + 1,
            .leaf (es.drop (minSizeOf m)) m nxt,
            .leaf (es.take (minSizeOf m)) m t.nextFree,
            .internal (internalInsertEntry res ((es.drop (minSizeOf m)).getD 0 (0, 0)).1
                         t.nextFree) mi) ∧
    ∀ q, q ≠ t.rootPageId → q ≠ lid → q ≠ t.nextFree →
      (treeSplit t key (fuel + 2)).map (fun t' => t'.pages q) = some (t.pages q) := by
  have h1 : t.rootPageId ≠ t.nextFree := ne_of_lt hlt1
  have h2 : lid ≠ t.nextFree := ne_of_lt hlt2
  have h3 : t.rootPageId ≠ lid := hne1.symm
  have hrootfull : pageIsFull (.internal res mi) = false := by
    simp [pageIsFull, BPTPage.size, BPTPage.maxSize, hnotfull]
  have hleaffull : pageIsFull (.leaf es m nxt) = true := by
    simp [pageIsFull, BPTPage.size, BPTPage.maxSize, hfull]
  have hdropmoved : (es.drop (minSizeOf m)).take (m - minSizeOf m) = es.drop (minSizeOf m) := by
    apply List.take_of_length_le; simp [hfull]
  have hdropall : es.drop m = [] := by rw [← hfull]; exact List.drop_length es
  have hbuild : buildSplitWS t key (fuel + 2) t.rootPageId
      [.header, .page t.rootPageId] = some ([.page t.rootPageId, .page lid], lid) := by
    unfold buildSplitWS
    rw [hroot]
    simp only [hrootfull, Bool.false_eq_true, if_false, hchild, List.cons_append,
      List.nil_append]
    unfold buildSplitWS
    rw [hleaf]
  have hT : treeSplit t key (fuel + 2) = some
      { pages := fun q =>
          if q = t.rootPageId then
            .internal (internalInsertEntry res ((es.drop (minSizeOf m)).getD 0 (0, 0)).1
                         t.nextFree) mi
          else if q = t.nextFree then .leaf (es.drop (minSizeOf m)) m nxt
          else if q = lid then .leaf (es.take (minSizeOf m)) m t.nextFree
          else t.pages q
        rootPageId := t.rootPageId
        treeDepth := t.treeDepth
        nextFree := t.nextFree + 1
        leafMax := t.leafMax
        internalMax := t.internalMax } := by
    simp only [treeSplit, hbuild]
    rw [hleaf]
    simp only [hleaffull, if_true, List.reverse_cons, List.reverse_nil, List.nil_append,
      List.cons_append]
    simp only [splitUnwind, splitStep]
    rw [hleaf]
    simp only [splitLeafStep, hleaffull, if_true, leafMoveRange, hdropmoved, hdropall,
      List.append_nil, List.nil_append, List.drop_zero]
    simp only [updatePage]
    rw [if_neg h3, if_neg h1, hroot]
    simp only [splitInternalStep, hrootfull, Bool.false_eq_true, not_false_eq_true,
      if_true, ite_true, if_false, ite_false, Bool.not_eq_true]
    simp only [List.take_zero, List.nil_append, updatePage]
  constructor
  · rw [hT]
    simp [Ne.symm h1, hne1, h2]
  · intro q hq1 hq2 hq3
    rw [hT]
    simp [hq1, hq2, hq3]

/-- A tree whose leaf 2 is full while its immediate sibling, leaf 1, is
not (shared input of the C1 witness). -/
def fullLeafTree : BPTree :=
  { pages := fun p =>
      if p = 3 then .internal [(0, 1), (20, 2)] 3
      else if p = 2 then .leaf [(20, 200), (30, 300), (40, 400)] 3 (-1)
      else if p = 1 then .leaf [(1, 10), (10, 100)] 3 2
      else junkPage
    rootPageId := 3
    treeDepth := 0
    nextFree := 4
    leafMax := 3
    internalMax := 3 }

/-- Witness for C1: splitting the full leaf 2 allocates page 4, moves
the upper half there, adds a child to the parent, and leaves the
non-full sibling (page 1) untouched. -/
theorem c1_witness :
    (treeSplit fullLeafTree 40 2).map
        (fun t' => (t'.rootPageId, t'.nextFree, t'.pages fullLeafTree.nextFree,
                    t'.pages 2, t'.pages fullLeafTree.rootPageId)) =
      some (fullLeafTree.rootPageId, fullLeafTree.nextFree + 1,
            .leaf ([(20, 200), (30, 300), (40, 400)].drop (minSizeOf 3)) 3 (-1),
            .leaf ([(20, 200), (30, 300), (40, 400)].take (minSizeOf 3)) 3
              fullLeafTree.nextFree,
            .internal (internalInsertEntry [(0, 1), (20, 2)]
                (([(20, 200), (30, 300), (40, 400)].drop (minSizeOf 3)).getD 0 (0, 0)).1
                fullLeafTree.nextFree) 3) ∧
    (treeSplit fullLeafTree 40 2).map (fun t' => t'.pages 1) =
      some (fullLeafTree.pages 1) :=
  ⟨(c1_amended_split_always_allocates fullLeafTree 40 0 [(0, 1), (20, 2)] 3 2
      [(20, 200), (30, 300), (40, 400)] 3 (-1) (by decide) (by decide) (by decide)
      (by decide) (by decide) (by decide) (by decide) (by decide)).1,
   (c1_amended_split_always_allocates fullLeafTree 40 0 [(0, 1), (20, 2)] 3 2
      [(20, 200), (30, 300), (40, 400)] 3 (-1) (by decide) (by decide) (by decide)
      (by decide) (by decide) (by decide) (by decide) (by decide)).2
     1 (by decide) (by decide) (by decide)⟩

/-- C9: the constructor does give the tree a root immediately — a fresh
empty leaf whose id (never `INVALID_PAGE_ID`) is stored in the header —
but `Remove` can destroy it.  Failing input: insert
10, 20, 30, 40, 50, 60 into a fresh tree (leaf max 4, internal max 5),
then remove 40.  The removal leaves the target leaf under half full
and merges it with its right sibling; the deletion propagates to the
root (size 3 → 2 ≠ 1), so the unwind reaches the header with the merge
context's `op_type_` still `Remove` and its `page_id_` still the
zero-initialised `0`, and `Merge` unconditionally stores that `0` —
the header page's own id, not any allocated tree page — into
`root_page_id_`.  Afterwards every lookup misses: `GetValue(10)` and
`GetValue(50)` return not-found although the keys were never removed,
contradicting the claim (and the source's own `Merge` documentation,
which says the unwind should stop when the root keeps more than one
entry). -/
theorem c9_remove_invalidates_root :
    (∀ (l i : Nat) (d : Int), (mkTree l i d).rootPageId = 1 ∧
        (mkTree l i d).pages (mkTree l i d).rootPageId = .leaf [] l (-1) ∧
        (mkTree l i d).rootPageId ≠ INVALID_PAGE_ID) ∧
    ((insertSeq (mkTree 4 5 0) [(10, 1), (20, 2), (30, 3), (40, 4), (50, 5), (60, 6)] 9).bind
        (fun t => treeRemove t 40 9)).map
        (fun t => (t.rootPageId, treeGetValue t 10 9, treeGetValue t 50 9)) =
      some (0, some none, some none) := by
  constructor
  · intro l i d
    refine ⟨rfl, ?_, ?_⟩
    · simp [mkTree]
    · show (1 : Int) ≠ INVALID_PAGE_ID
      decide
  · decide

/-! ## LRU-K replacer

Translated from `lru_k_replacer.cpp`.  `node_store_` is the partial map
`nodeStore`, the three `std::list`s are lists of frame ids, and
`curr_size_` is the `int` count of evictable frames.  Two places in the
source splice a node with an iterator that may point into the *other*
cold/warm list (the `cold_it_` of a node moved cold→warm, and the
first-access `warm_list_.insert(cold_list_.end(), …)`); a `std::list`
erase physically unlinks the node from whichever list holds it, so the
model erases a frame id from both lists (each id is in at most one) and
follows the declared intent — spec §4.1 — for the insertion (first
`Get` access enters the warm list). -/

inductive AccessType where
  | get
  | other
  deriving Repr, DecidableEq

structure LRUKNode where
  accessedTime : List Nat
  fid : Nat
  accessType : AccessType
  isEvictable : Bool
  deriving Repr, DecidableEq

structure LRUK where
  k : Nat
  replacerSize : Nat
  nodeStore : Nat → Option LRUKNode
  coldList : List Nat
  warmList : List Nat
  hotList : List Nat
  currSize : Int
  currentTimestamp : Nat

/-- `LRUKReplacer::LRUKReplacer(num_frames, k)`. -/
def initLRUK (numFrames k : Nat) : LRUK :=
  { k := k, replacerSize := numFrames, nodeStore := fun _ => none,
    coldList := [], warmList := [], hotList := [], currSize := 0, currentTimestamp := 0 }

def setNode (s : LRUK) (fid : Nat) (n : LRUKNode) : LRUK :=
  { s with nodeStore := fun g => if g = fid then some n else s.nodeStore g }

/-- Modelled from the spec: the ordered-set comparator of `hot_list_`
(declared in the missing `lru_k_replacer.h`) orders nodes by their
K-th-from-last access time, least recent at the front (§4.1); the
key is the oldest retained timestamp `accessed_time_.front()`. -/
def hotKeyOf (s : LRUK) (fid : Nat) : Nat :=
  match s.nodeStore fid with
  | some n => n.accessedTime.headD 0
  | none => 0

def hotInsert (s : LRUK) (fid : Nat) : List Nat → List Nat
  | [] => [fid]
  | g :: rest =>
    if hotKeyOf s g ≤ hotKeyOf s fid then g :: hotInsert s fid rest
    else fid :: g :: rest

/-- `LRUKReplacer::RecordAccess`. -/
def recordAccess (s : LRUK) (fid : Nat) (atype : AccessType) : LRUK :=
  let ts := s.currentTimestamp + 1
  let s := { s with currentTimestamp := ts }
  match s.nodeStore fid with
  | none =>
    let node : LRUKNode := { accessedTime := [ts], fid := fid, accessType := atype,
                             isEvictable := false }
    let s := setNode s fid node
    if atype = .get then { s with warmList := s.warmList ++ [fid] }
    else { s with coldList := s.coldList ++ [fid] }
  | some node =>
    if node.accessedTime.length ≥ s.k then
      let s := setNode s fid { node with accessedTime := node.accessedTime.tail ++ [ts] }
      { s with hotList := hotInsert s fid (s.hotList.filter (· ≠ fid)) }
    else
      let node' := { node with accessedTime := node.accessedTime ++ [ts] }
      let s := setNode s fid node'
      if node'.accessedTime.length ≥ s.k then
        { s with coldList := s.coldList.filter (· ≠ fid),
                 warmList := s.warmList.filter (· ≠ fid),
                 hotList := hotInsert s fid s.hotList }
      else if node.accessType ≠ atype ∧ atype = .get then
        { s with coldList := s.coldList.filter (· ≠ fid),
                 warmList := s.warmList.filter (· ≠ fid) ++ [fid] }
      else s

/-- The three front-to-back scans of `Evict`: the first entry whose
node has the evictable flag set. -/
def scanEvictable (s : LRUK) : List Nat → Option Nat
  | [] => none
  | f :: rest =>
    match s.nodeStore f with
    | some n => if n.isEvictable then some f else scanEvictable s rest
    | none => scanEvictable s rest

/-- `LRUKReplacer::Evict`: cold first, then warm, then hot; the victim
is erased from the node store and its list. -/
def evictLRUK (s : LRUK) : Option (Nat × LRUK) :=
  if s.currSize = 0 then none
  else
    match scanEvictable s s.coldList with
    | some fid =>
      some (fid, { s with nodeStore := fun g => if g = fid then none else s.nodeStore g,
                          coldList := s.coldList.filter (· ≠ fid),
                          currSize := s.currSize - 1 })
    | none =>
      match scanEvictable s s.warmList with
      | some fid =>
        some (fid, { s with nodeStore := fun g => if g = fid then none else s.nodeStore g,
                            warmList := s.warmList.filter (· ≠ fid),
                            currSize := s.currSize - 1 })
      | none =>
        match scanEvictable s s.hotList with
        | some fid =>
          some (fid, { s with nodeStore := fun g => if g = fid then none else s.nodeStore g,
                              hotList := s.hotList.filter (· ≠ fid),
                              currSize := s.currSize - 1 })
        | none => none

/-- `LRUKReplacer::SetEvictable`: a no-op for an untracked frame;
otherwise flips the flag, adjusting `curr_size_` by the difference of
the two flags. -/
def setEvictable (s : LRUK) (fid : Nat) (b : Bool) : LRUK :=
  match s.nodeStore fid with
  | none => s
  | some node =>
    { setNode s fid { node with isEvictable := b } with
      currSize := s.currSize + (if b then 1 else 0) - (if node.isEvictable then 1 else 0) }

/-- `LRUKReplacer::Remove`: a silent no-op for an untracked frame;
throws (`none`) for a tracked non-evictable one; otherwise erases the
node from the store and from the list holding it. -/
def removeLRUK (s : LRUK) (fid : Nat) : Option LRUK :=
  match s.nodeStore fid with
  | none => some s
  | some node =>
    if ¬ node.isEvictable then none
    else
      some { s with
        currSize := s.currSize - 1
        hotList := if node.accessedTime.length ≥ s.k then s.hotList.filter (· ≠ fid)
                   else s.hotList
        coldList := if node.accessedTime.length ≥ s.k then s.coldList
                    else s.coldList.filter (· ≠ fid)
        warmList := if node.accessedTime.length ≥ s.k then s.warmList
                    else s.warmList.filter (· ≠ fid)
        nodeStore := fun g => if g = fid then none else s.nodeStore g }

/-- `LRUKReplacer::Size`. -/
def sizeLRUK (s : LRUK) : Int := s.currSize

/-- The states reachable by a sequence of `RecordAccess` and
`SetEvictable` calls on a fresh replacer. -/
inductive LRUKReachable : LRUK → Prop
  | init (numFrames k : Nat) : LRUKReachable (initLRUK numFrames k)
  | record (s : LRUK) (fid : Nat) (atype : AccessType) :
      LRUKReachable s → LRUKReachable (recordAccess s fid atype)
  | setEv (s : LRUK) (fid : Nat) (b : Bool) :
      LRUKReachable s → LRUKReachable (setEvictable s fid b)

/-! Sanity examples for the replacer. -/

example :
    ((recordAccess (recordAccess (initLRUK 10 3) 1 .other) 2 .other).coldList = [1, 2]) ∧
    ((recordAccess (recordAccess (recordAccess (initLRUK 10 2) 1 .other) 1 .other)
        1 .other).hotList = [1]) := by decide

example :
    (evictLRUK (setEvictable (recordAccess (initLRUK 10 2) 1 .other) 1 true)).map
      Prod.fst = some 1 := by decide

/-! ### The replacer invariant

Over any `RecordAccess`/`SetEvictable` history: tracked frames with
fewer than K recorded accesses live in the cold or warm list; every
tracked frame has at least one recorded access; and a frame found in
the cold or warm list has fewer than K accesses unless it has exactly
one (the `k = 1` fringe, where a first access lands in cold with
`1 ≥ k`). -/

def RInv (s : LRUK) : Prop :=
  (∀ fid n, s.nodeStore fid = some n → n.accessedTime.length < s.k →
     fid ∈ s.coldList ∨ fid ∈ s.warmList) ∧
  (∀ fid n, s.nodeStore fid = some n → 1 ≤ n.accessedTime.length) ∧
  (∀ fid n, s.nodeStore fid = some n → (fid ∈ s.coldList ∨ fid ∈ s.warmList) →
     (n.accessedTime.length < s.k ∨ n.accessedTime.length = 1))

theorem rinv_init (numFrames k : Nat) : RInv (initLRUK numFrames k) := by
  refine ⟨?_, ?_, ?_⟩ <;> intro fid n h <;> simp [initLRUK] at h

theorem mem_filter_ne {l : List Nat} {g fid : Nat} (hm : g ∈ l) (hne : g ≠ fid) :
    g ∈ l.filter (· ≠ fid) :=
  List.mem_filter.mpr ⟨hm, by simp [hne]⟩

theorem not_mem_filter_self {l : List Nat} {fid : Nat} : fid ∉ l.filter (· ≠ fid) := by
  intro h
  simpa using (List.mem_filter.mp h).2

/-- Transfer of `RInv` along a state change that touches the node store
at a single frame id: away from `fid` the store is unchanged and
cold/warm membership is preserved both ways, while the obligations at
`fid` itself are supplied per branch. -/
theorem rinv_update (s s' : LRUK) (fid : Nat)
    (hk : s'.k = s.k)
    (hstore : ∀ g, g ≠ fid → s'.nodeStore g = s.nodeStore g)
    (hfwd : ∀ g, g ≠ fid → (g ∈ s.coldList ∨ g ∈ s.warmList) →
      (g ∈ s'.coldList ∨ g ∈ s'.warmList))
    (hbwd : ∀ g, g ≠ fid → (g ∈ s'.coldList ∨ g ∈ s'.warmList) →
      (g ∈ s.coldList ∨ g ∈ s.warmList))
    (hfid1 : ∀ n, s'.nodeStore fid = some n → n.accessedTime.length < s'.k →
      fid ∈ s'.coldList ∨ fid ∈ s'.warmList)
    (hfid2 : ∀ n, s'.nodeStore fid = some n → 1 ≤ n.accessedTime.length)
    (hfid3 : ∀ n, s'.nodeStore fid = some n →
      (fid ∈ s'.coldList ∨ fid ∈ s'.warmList) →
      (n.accessedTime.length < s'.k ∨ n.accessedTime.length = 1))
    (hinv : RInv s) : RInv s' := by
  obtain ⟨h1, h2, h3⟩ := hinv
  refine ⟨?_, ?_, ?_⟩ <;> intro g n hg
  · intro hlen
    by_cases hgf : g = fid
    · subst hgf
      exact hfid1 n hg hlen
    · rw [hstore g hgf] at hg
      exact hfwd g hgf (h1 g n hg (hk ▸ hlen))
  · by_cases hgf : g = fid
    · subst hgf
      exact hfid2 n hg
    · rw [hstore g hgf] at hg
      exact h2 g n hg
  · intro hmem
    by_cases hgf : g = fid
    · subst hgf
      exact hfid3 n hg hmem
    · rw [hstore g hgf] at hg
      rw [hk]
      exact h3 g n hg (hbwd g hgf hmem)

theorem rinv_record (s : LRUK) (fid : Nat) (atype : AccessType) (hinv : RInv s) :
    RInv (recordAccess s fid atype) := by
  unfold recordAccess
  cases h : s.nodeStore fid with
  | none =>
    dsimp only
    rw [h]
    by_cases ha : atype = .get
    · rw [if_pos ha]
      refine rinv_update s _ fid rfl (fun g hgf => ?_) (fun g hgf hm => ?_)
        (fun g hgf hm => ?_) (fun n hn _ => ?_) (fun n hn => ?_) (fun n hn _ => ?_) hinv
      · simp only [setNode, if_neg hgf]
      · rcases hm with hm | hm
        · exact Or.inl hm
        · exact Or.inr (List.mem_append_left _ hm)
      · rcases hm with hm | hm
        · exact Or.inl hm
        · rcases List.mem_append.mp hm with hm' | hm'
          · exact Or.inr hm'
          · exact absurd (List.mem_singleton.mp hm') hgf
      · exact Or.inr (List.mem_append_right _ (List.mem_singleton.mpr rfl))
      · simp only [setNode, eq_self_iff_true, if_true, Option.some.injEq] at hn
        subst hn
        simp
      · simp only [setNode, eq_self_iff_true, if_true, Option.some.injEq] at hn
        subst hn
        simp
    · rw [if_neg ha]
      refine rinv_update s _ fid rfl (fun g hgf => ?_) (fun g hgf hm => ?_)
        (fun g hgf hm => ?_) (fun n hn _ => ?_) (fun n hn => ?_) (fun n hn _ => ?_) hinv
      · simp only [setNode, if_neg hgf]
      · rcases hm with hm | hm
        · exact Or.inl (List.mem_append_left _ hm)
        · exact Or.inr hm
      · rcases hm with hm | hm
        · rcases List.mem_append.mp hm with hm' | hm'
          · exact Or.inl hm'
          · exact absurd (List.mem_singleton.mp hm') hgf
        · exact Or.inr hm
      · exact Or.inl (List.mem_append_right _ (List.mem_singleton.mpr rfl))
      · simp only [setNode, eq_self_iff_true, if_true, Option.some.injEq] at hn
        subst hn
        simp
      · simp only [setNode, eq_self_iff_true, if_true, Option.some.injEq] at hn
        subst hn
        simp
  | some node =>
    dsimp only
    simp only [h]
    have hlen1 : 1 ≤ node.accessedTime.length := hinv.2.1 fid node h
    have hmemold := hinv.2.2 fid node h
    by_cases hk : node.accessedTime.length ≥ s.k
    · rw [if_pos hk]
      refine rinv_update s _ fid rfl (fun g hgf => ?_) (fun g hgf hm => hm)
        (fun g hgf hm => hm) (fun n hn hlen => ?_) (fun n hn => ?_) (fun n hn hmem => ?_) hinv
      · simp only [setNode, if_neg hgf]
      · exfalso
        simp only [setNode, eq_self_iff_true, if_true, Option.some.injEq] at hn
        subst hn
        simp only [List.length_append, List.length_tail, List.length_cons,
          List.length_nil] at hlen
        have hlen' : node.accessedTime.length - 1 + 1 < s.k := hlen
        omega
      · simp only [setNode, eq_self_iff_true, if_true, Option.some.injEq] at hn
        subst hn
        simp
      · simp only [setNode, eq_self_iff_true, if_true, Option.some.injEq] at hn
        subst hn
        rcases hmemold hmem with hc | hc
        · omega
        · right
          simp only [List.length_append, List.length_tail, List.length_cons,
            List.length_nil, hc]
    · rw [if_neg hk]
      by_cases hk2 : node.accessedTime.length + 1 ≥ s.k
      · rw [if_pos (by simpa using hk2)]
        refine rinv_update s _ fid rfl (fun g hgf => ?_) (fun g hgf hm => ?_)
          (fun g hgf hm => ?_) (fun n hn hlen => ?_) (fun n hn => ?_)
          (fun n hn hmem => ?_) hinv
        · simp only [setNode, if_neg hgf]
        · rcases hm with hm | hm
          · exact Or.inl (mem_filter_ne hm hgf)
          · exact Or.inr (mem_filter_ne hm hgf)
        · rcases hm with hm | hm
          · exact Or.inl (List.mem_of_mem_filter hm)
          · exact Or.inr (List.mem_of_mem_filter hm)
        · exfalso
          simp only [setNode, eq_self_iff_true, if_true, Option.some.injEq] at hn
          subst hn
          simp only [List.length_append, List.length_cons, List.length_nil] at hlen
          have hlen' : node.accessedTime.length + 1 < s.k := hlen
          omega
        · simp only [setNode, eq_self_iff_true, if_true, Option.some.injEq] at hn
          subst hn
          simp
        · exact absurd hmem (by
            push_neg
            exact ⟨not_mem_filter_self, not_mem_filter_self⟩)
      · rw [if_neg (by simpa using hk2)]
        by_cases hmv : node.accessType ≠ atype ∧ atype = .get
        · rw [if_pos hmv]
          refine rinv_update s _ fid rfl (fun g hgf => ?_) (fun g hgf hm => ?_)
            (fun g hgf hm => ?_) (fun n hn _ => ?_) (fun n hn => ?_)
            (fun n hn _ => ?_) hinv
          · simp only [setNode, if_neg hgf]
          · rcases hm with hm | hm
            · exact Or.inl (mem_filter_ne hm hgf)
            · exact Or.inr (List.mem_append_left _ (mem_filter_ne hm hgf))
          · rcases hm with hm | hm
            · exact Or.inl (List.mem_of_mem_filter hm)
            · rcases List.mem_append.mp hm with hm' | hm'
              · exact Or.inr (List.mem_of_mem_filter hm')
              · exact absurd (List.mem_singleton.mp hm') hgf
          · exact Or.inr (List.mem_append_right _ (List.mem_singleton.mpr rfl))
          · simp only [setNode, eq_self_iff_true, if_true, Option.some.injEq] at hn
            subst hn
            simp
          · simp only [setNode, eq_self_iff_true, if_true, Option.some.injEq] at hn
            subst hn
            left
            simp only [List.length_append, List.length_cons, List.length_nil]
            show node.accessedTime.length + 1 < s.k
            omega
        · rw [if_neg hmv]
          refine rinv_update s _ fid rfl (fun g hgf => ?_) (fun g hgf hm => hm)
            (fun g hgf hm => hm) (fun n hn _ => ?_) (fun n hn => ?_)
            (fun n hn _ => ?_) hinv
          · simp only [setNode, if_neg hgf]
          · exact hinv.1 fid node h (by omega)
          · simp only [setNode, eq_self_iff_true, if_true, Option.some.injEq] at hn
            subst hn
            simp
          · simp only [setNode, eq_self_iff_true, if_true, Option.some.injEq] at hn
            subst hn
            left
            simp only [List.length_append, List.length_cons, List.length_nil]
            show node.accessedTime.length + 1 < s.k
            omega

theorem rinv_setEvictable (s : LRUK) (fid : Nat) (b : Bool) (hinv : RInv s) :
    RInv (setEvictable s fid b) := by
  unfold setEvictable
  cases h : s.nodeStore fid with
  | none => exact hinv
  | some node =>
    refine rinv_update s _ fid rfl (fun g hgf => ?_) (fun g hgf hm => hm)
      (fun g hgf hm => hm) (fun n hn hlen => ?_) (fun n hn => ?_)
      (fun n hn hmem => ?_) hinv
    · simp only [setNode, if_neg hgf]
    · simp only [setNode, eq_self_iff_true, if_true, Option.some.injEq] at hn
      subst hn
      exact hinv.1 fid node h hlen
    · simp only [setNode, eq_self_iff_true, if_true, Option.some.injEq] at hn
      subst hn
      exact hinv.2.1 fid node h
    · simp only [setNode, eq_self_iff_true, if_true, Option.some.injEq] at hn
      subst hn
      exact hinv.2.2 fid node h hmem

theorem rinv_of_reachable {s : LRUK} (h : LRUKReachable s) : RInv s := by
  induction h with
  | init numFrames k => exact rinv_init numFrames k
  | record s fid atype _ ih => exact rinv_record s fid atype ih
  | setEv s fid b _ ih => exact rinv_setEvictable s fid b ih

theorem scanEvictable_sound (s : LRUK) (l : List Nat) (fid : Nat)
    (h : scanEvictable s l = some fid) :
    fid ∈ l ∧ ∃ n, s.nodeStore fid = some n ∧ n.isEvictable = true := by
  induction l with
  | nil => simp [scanEvictable] at h
  | cons f rest ih =>
    unfold scanEvictable at h
    cases hf : s.nodeStore f with
    | none =>
      simp only [hf] at h
      obtain ⟨hm, hrest⟩ := ih h
      exact ⟨List.mem_cons_of_mem f hm, hrest⟩
    | some n =>
      simp only [hf] at h
      by_cases he : n.isEvictable = true
      · rw [if_pos he] at h
        cases h
        exact ⟨List.mem_cons_self _ _, n, hf, he⟩
      · rw [if_neg he] at h
        obtain ⟨hm, hrest⟩ := ih h
        exact ⟨List.mem_cons_of_mem f hm, hrest⟩

theorem scanEvictable_isSome (s : LRUK) (l : List Nat) (g : Nat) (n : LRUKNode)
    (hg : g ∈ l) (hn : s.nodeStore g = some n) (he : n.isEvictable = true) :
    ∃ f, scanEvictable s l = some f := by
  induction l with
  | nil => simp at hg
  | cons f rest ih =>
    unfold scanEvictable
    cases hf : s.nodeStore f with
    | none =>
      rcases List.mem_cons.mp hg with rfl | hmem
      · rw [hf] at hn
        cases hn
      · simpa only [hf] using ih hmem
    | some n' =>
      by_cases he' : n'.isEvictable = true
      · exact ⟨f, by simp only [hf, if_pos he']⟩
      · rcases List.mem_cons.mp hg with rfl | hmem
        · rw [hf] at hn
          cases hn
          exact absurd he he'
        · simpa only [hf, if_neg he'] using ih hmem

/-- C6 counterexample: with K = 3, access frame 1 (at time 1), frame 2
(at time 2), frame 1 again (at time 3), and mark both evictable.  Both
frames have fewer than K = 3 accesses; frame 2's most recent access
(time 2) is older than frame 1's (time 3), so the claim requires
`Evict` to return frame 2 — but it returns frame 1, the frame at the
front of the cold list, i.e. the one whose *first* access is oldest:
subsequent accesses never reorder a cold entry. -/
theorem c6_counterexample_not_least_recent :
    (let s := setEvictable (setEvictable (recordAccess (recordAccess (recordAccess
        (initLRUK 10 3) 1 .other) 2 .other) 1 .other) 1 true) 2 true
     s.k = 3 ∧
     (s.nodeStore 1).map (fun n => (n.accessedTime, n.isEvictable)) = some ([1, 3], true) ∧
     (s.nodeStore 2).map (fun n => (n.accessedTime, n.isEvictable)) = some ([2], true) ∧
     (evictLRUK s).map Prod.fst = some 1) := by decide

/-- C6 amended: after any sequence of `RecordAccess` and `SetEvictable`
operations, a successful `Evict` returns a frame whose evictable flag
is set, and any evictable frame with fewer than K recorded accesses is
returned before any evictable frame with K or more accesses; among
evictable frames with fewer than K accesses, however, the choice
follows the cold-then-warm list order — frames ordered by when they
entered the list (first access), not by how recently they were last
accessed. -/
theorem c6_amended_evict_prefers_few_accesses (s : LRUK) (fid : Nat)
    (hreach : LRUKReachable s)
    (hev : (evictLRUK s).map Prod.fst = some fid) :
    (∃ n, s.nodeStore fid = some n ∧ n.isEvictable = true) ∧
    ((∃ g ng, s.nodeStore g = some ng ∧ ng.isEvictable = true ∧
        ng.accessedTime.length < s.k) →
      ∃ n, s.nodeStore fid = some n ∧ n.accessedTime.length < s.k) := by
  obtain ⟨h1, h2, h3⟩ := rinv_of_reachable hreach
  unfold evictLRUK at hev
  by_cases hz : s.currSize = 0
  · rw [if_pos hz] at hev
    cases hev
  · rw [if_neg hz] at hev
    cases hcold : scanEvictable s s.coldList with
    | some f =>
      simp only [hcold, Option.map_some', Option.some.injEq] at hev
      subst hev
      obtain ⟨hmem, n, hn, he⟩ := scanEvictable_sound s s.coldList f hcold
      refine ⟨⟨n, hn, he⟩, ?_⟩
      rintro ⟨g, ng, hg, -, hlg⟩
      refine ⟨n, hn, ?_⟩
      rcases h3 f n hn (Or.inl hmem) with hc | hc
      · exact hc
      · have := h2 g ng hg
        omega
    | none =>
      cases hwarm : scanEvictable s s.warmList with
      | some f =>
        simp only [hcold, hwarm, Option.map_some', Option.some.injEq] at hev
        subst hev
        obtain ⟨hmem, n, hn, he⟩ := scanEvictable_sound s s.warmList f hwarm
        refine ⟨⟨n, hn, he⟩, ?_⟩
        rintro ⟨g, ng, hg, -, hlg⟩
        refine ⟨n, hn, ?_⟩
        rcases h3 f n hn (Or.inr hmem) with hc | hc
        · exact hc
        · have := h2 g ng hg
          omega
      | none =>
        cases hhot : scanEvictable s s.hotList with
        | some f =>
          simp only [hcold, hwarm, hhot, Option.map_some', Option.some.injEq] at hev
          subst hev
          obtain ⟨hmem, n, hn, he⟩ := scanEvictable_sound s s.hotList f hhot
          refine ⟨⟨n, hn, he⟩, ?_⟩
          rintro ⟨g, ng, hg, heg, hlg⟩
          exfalso
          rcases h1 g ng hg hlg with hm | hm
          · obtain ⟨f', hf'⟩ := scanEvictable_isSome s s.coldList g ng hm hg heg
            rw [hf'] at hcold
            cases hcold
          · obtain ⟨f', hf'⟩ := scanEvictable_isSome s s.warmList g ng hm hg heg
            rw [hf'] at hwarm
            cases hwarm
        | none =>
          simp only [hcold, hwarm, hhot] at hev
          cases hev

/-- A reachable replacer state (K = 3) holding one evictable frame
(shared input of the C6 witness). -/
def c6WitnessState : LRUK := setEvictable (recordAccess (initLRUK 10 3) 1 .other) 1 true

/-- Witness for C6: on the concrete reachable state, `Evict` returns
frame 1, which is evictable and has fewer than K accesses. -/
theorem c6_witness :
    (∃ n, c6WitnessState.nodeStore 1 = some n ∧ n.isEvictable = true) ∧
    ((∃ g ng, c6WitnessState.nodeStore g = some ng ∧ ng.isEvictable = true ∧
        ng.accessedTime.length < c6WitnessState.k) →
      ∃ n, c6WitnessState.nodeStore 1 = some n ∧
        n.accessedTime.length < c6WitnessState.k) :=
  c6_amended_evict_prefers_few_accesses c6WitnessState 1
    (LRUKReachable.setEv (recordAccess (initLRUK 10 3) 1 .other) 1 true
      (LRUKReachable.record (initLRUK 10 3) 1 .other (LRUKReachable.init 10 3)))
    (by decide)

/-- C10: for a frame id the replacer is not tracking, `SetEvictable` and
`Remove` are silent no-ops: they return leaving the whole state (lists,
node map, `Size()`) unchanged, with no exception; and `Remove` throws
(result `none`) exactly for a tracked frame whose evictable flag is
unset. -/
theorem c10_untracked_silent_noops (s : LRUK) (fid : Nat) (b : Bool) :
    (s.nodeStore fid = none →
      setEvictable s fid b = s ∧ removeLRUK s fid = some s) ∧
    (removeLRUK s fid = none ↔ ∃ n, s.nodeStore fid = some n ∧ n.isEvictable = false) := by
  constructor
  · intro h
    constructor
    · unfold setEvictable
      simp only [h]
    · unfold removeLRUK
      simp only [h]
  · constructor
    · intro h
      unfold removeLRUK at h
      cases hf : s.nodeStore fid with
      | none =>
        simp only [hf] at h
        cases h
      | some n =>
        simp only [hf] at h
        by_cases he : n.isEvictable = true
        · rw [if_neg (by simp [he])] at h
          cases h
        · refine ⟨n, rfl, ?_⟩
          simpa using he
    · rintro ⟨n, hn, he⟩
      simp [removeLRUK, hn, he]

/-- A reachable replacer state tracking frame 3 as non-evictable
(shared input of the C10 witness); frame 5 is untracked. -/
def c10WitnessState : LRUK := recordAccess (initLRUK 10 2) 3 .other

/-- Witness for C10: `SetEvictable`/`Remove` on the untracked frame 5
leave the state unchanged, and `Remove` on the tracked non-evictable
frame 3 throws. -/
theorem c10_witness :
    (setEvictable c10WitnessState 5 true = c10WitnessState ∧
      removeLRUK c10WitnessState 5 = some c10WitnessState) ∧
    (removeLRUK c10WitnessState 3 = none ↔
      ∃ n, c10WitnessState.nodeStore 3 = some n ∧ n.isEvictable = false) :=
  ⟨(c10_untracked_silent_noops c10WitnessState 5 true).1 rfl,
   (c10_untracked_silent_noops c10WitnessState 3 true).2⟩

/-! ## Buffer pool manager — `UnpinPage`

Translated from `BufferPoolManager::UnpinPage` in
`buffer_pool_manager.cpp`.  `page_table_` maps page ids to frame
indices; each frame of `pages_` carries `page_id_`, `pin_count_` (a C++
`int`, hence `Int` here) and `is_dirty_`; the replacer is the LRU-K
replacer above. -/

structure BPMPage where
  pageId : PageId
  pinCount : Int
  isDirty : Bool
  deriving Repr, DecidableEq

structure BPM where
  pageTable : PageId → Option Nat
  pages : Nat → BPMPage
  replacer : LRUK

/-- `BufferPoolManager::UnpinPage`: false for an unknown page id or a
pin count already ≤ 0; otherwise mark the frame evictable in the
replacer when the pin count is about to reach zero, decrement it, and
OR-accumulate the dirty flag. -/
def unpinPage (s : BPM) (pid : PageId) (dirty : Bool) : Bool × BPM :=
  match s.pageTable pid with
  | none => (false, s)
  | some fid =>
    let pg := s.pages fid
    if pg.pinCount ≤ 0 then (false, s)
    else
      let repl := if pg.pinCount = 1 then setEvictable s.replacer fid true else s.replacer
      (true, { s with
        pages := fun g => if g = fid then
            { pg with pinCount := pg.pinCount - 1, isDirty := pg.isDirty || dirty }
          else s.pages g
        replacer := repl })

/-- C3: `UnpinPage(page_id, is_dirty)` returns false exactly when the
page id is unknown or the frame's pin count is already 0 (the code
tests `≤ 0`; with the non-negative pin counts of reachable states the
two coincide, stated here as the `0 ≤ pinCount` conjunct), changing
nothing in those cases; on success it decrements the pin count,
OR-accumulates the dirty flag (so unpinning with `is_dirty = false`
never clears a set flag), touches no other frame and not the page
table, and calls `SetEvictable(frame, true)` on the replacer precisely
when the pin count reaches zero (was 1). -/
theorem c3_unpin_characterisation (s : BPM) (pid : PageId) (d : Bool) :
    (s.pageTable pid = none → unpinPage s pid d = (false, s)) ∧
    (∀ fid, s.pageTable pid = some fid →
      ((s.pages fid).pinCount ≤ 0 → unpinPage s pid d = (false, s)) ∧
      (0 ≤ (s.pages fid).pinCount →
        ((unpinPage s pid d).1 = false ↔ (s.pages fid).pinCount = 0)) ∧
      (0 < (s.pages fid).pinCount →
        (unpinPage s pid d).1 = true ∧
        ((unpinPage s pid d).2.pages fid).pinCount = (s.pages fid).pinCount - 1 ∧
        ((unpinPage s pid d).2.pages fid).isDirty = ((s.pages fid).isDirty || d) ∧
        (unpinPage s pid d).2.replacer =
          (if (s.pages fid).pinCount = 1 then setEvictable s.replacer fid true
           else s.replacer) ∧
        (∀ g, g ≠ fid → (unpinPage s pid d).2.pages g = s.pages g) ∧
        (unpinPage s pid d).2.pageTable = s.pageTable)) := by
  constructor
  · intro h
    unfold unpinPage
    simp only [h]
  · intro fid hfid
    refine ⟨?_, ?_, ?_⟩
    · intro hle
      unfold unpinPage
      simp only [hfid, if_pos hle]
    · intro hge
      unfold unpinPage
      simp only [hfid]
      by_cases hle : (s.pages fid).pinCount ≤ 0
      · rw [if_pos hle]
        simp only [true_iff]
        omega
      · rw [if_neg hle]
        simp only [Bool.true_eq_false, false_iff]
        omega
    · intro hpos
      have hle : ¬ (s.pages fid).pinCount ≤ 0 := by omega
      unfold unpinPage
      simp only [hfid, if_neg hle]
      refine ⟨by simp, by simp, by simp, by simp, ?_, by simp⟩
      intro g hg
      simp [hg]

/-- A one-frame buffer pool with page 7 pinned once in frame 0 (shared
input of the C3 witness). -/
def bpmWitnessState : BPM :=
  { pageTable := fun p => if p = 7 then some 0 else none
    pages := fun f => if f = 0 then { pageId := 7, pinCount := 1, isDirty := false }
                      else { pageId := INVALID_PAGE_ID, pinCount := 0, isDirty := false }
    replacer := setEvictable (recordAccess (initLRUK 4 2) 0 .other) 0 false }

/-- Witness for C3: unpinning page 7 (pin count 1, clean, dirty flag
passed true) succeeds, drops the pin count to 0, sets the dirty flag,
and marks frame 0 evictable; unpinning unknown page 9 fails and
changes nothing. -/
theorem c3_witness :
    (unpinPage bpmWitnessState 9 true = (false, bpmWitnessState)) ∧
    ((unpinPage bpmWitnessState 7 true).1 = true ∧
     ((unpinPage bpmWitnessState 7 true).2.pages 0).pinCount =
       (bpmWitnessState.pages 0).pinCount - 1 ∧
     ((unpinPage bpmWitnessState 7 true).2.pages 0).isDirty =
       ((bpmWitnessState.pages 0).isDirty || true) ∧
     (unpinPage bpmWitnessState 7 true).2.replacer =
       (if (bpmWitnessState.pages 0).pinCount = 1 then
          setEvictable bpmWitnessState.replacer 0 true
        else bpmWitnessState.replacer) ∧
     (∀ g, g ≠ 0 → (unpinPage bpmWitnessState 7 true).2.pages g =
       bpmWitnessState.pages g) ∧
     (unpinPage bpmWitnessState 7 true).2.pageTable = bpmWitnessState.pageTable) :=
  ⟨(c3_unpin_characterisation bpmWitnessState 9 true).1 rfl,
   ((c3_unpin_characterisation bpmWitnessState 7 true).2 0 rfl).2.2 (by decide)⟩

/-! ## Lock manager

Translated from `lock_manager.cpp` / `lock_manager.h`.  The lock table
maps record ids to request queues (`request_queue_` plus the
`upgrading_` slot); blocking on the condition variable is outside a
sequential model, so each locking call is modelled up to the point
where it either returns, throws (`threw`), or enqueues and would start
waiting (`enqueued`, with the state as mutated before the wait:
request pushed/moved and `AbortYoung` applied). -/

inductive TxnState where
  | growing
  | shrinking
  | aborted
  | committed
  deriving Repr, DecidableEq

inductive IsoLevel where
  | readUncommitted
  | readCommitted
  | repeatableRead
  deriving Repr, DecidableEq

/-- Modelled from the spec: the transaction handle (§3,
`concurrency/transaction.h` is absent from `src/`): state, isolation
level, shared- and exclusive-lock sets; `TransactionManager::
GetTransaction` is the `txns` map of `LMState` below. -/
structure Txn where
  state : TxnState
  iso : IsoLevel
  sharedSet : List Nat
  exclSet : List Nat
  deriving Repr, DecidableEq

inductive LockMode where
  | shared
  | exclusive
  deriving Repr, DecidableEq

structure LockRequest where
  txnId : Int
  mode : LockMode
  granted : Bool
  deriving Repr, DecidableEq

structure LockRequestQueue where
  queue : List LockRequest
  upgrading : Int
  deriving Repr, DecidableEq

def INVALID_TXN_ID : Int := -1

structure LMState where
  txns : Int → Txn
  lockTable : Nat → LockRequestQueue

inductive AbortReason where
  | lockOnShrinking
  | lockSharedOnReadUncommitted
  | upgradeConflict
  | deadlock
  deriving Repr, DecidableEq

/-- The pre-wait outcome of a locking call: returned `true` at once
(already holding), returned `false` (transaction aborted), raised a
`TransactionAbortException`, or enqueued and about to block. -/
inductive LMOutcome where
  | alreadyGranted
  | returnedFalse
  | threw (reason : AbortReason)
  | enqueued
  deriving Repr, DecidableEq

def setTxnState (st : LMState) (tid : Int) (ts : TxnState) : LMState :=
  { st with txns := fun g => if g = tid then { st.txns g with state := ts } else st.txns g }

/-- `LockManager::HasConflict`: at least one of the two requests is
exclusive. -/
def hasConflict (r o : LockRequest) : Bool :=
  r.mode = .exclusive || o.mode = .exclusive

/-- `LockManager::AbortYoung`: scan the queue from the front up to the
request itself; every conflicting request of a strictly younger
(numerically larger id) transaction is marked ABORTED and erased.  The
returned `Bool` is `any_killed`, i.e. whether `cv_.notify_all()` runs.
(The loop runs past the end if the request is not in the queue; every
caller has just pushed or moved it there.) -/
def abortYoungGo (R : LockRequest) (txns : Int → Txn) :
    List LockRequest → List LockRequest × (Int → Txn) × Bool
  | [] => ([], txns, false)
  | o :: rest =>
    if o.txnId = R.txnId then (o :: rest, txns, false)
    else if R.txnId < o.txnId ∧ hasConflict R o = true then
      let txns' := fun g => if g = o.txnId then { txns g with state := .aborted } else txns g
      let r := abortYoungGo R txns' rest
      (r.1, r.2.1, true)
    else
      let r := abortYoungGo R txns rest
      (o :: r.1, r.2.1, r.2.2)

/-- `LockRequestQueue::Find` + `Erase` (erase the entry of a
transaction, as `Unlock` and `Move` do). -/
def eraseReq : List LockRequest → Int → List LockRequest
  | [], _ => []
  | r :: rest, tid => if r.txnId = tid then rest else r :: eraseReq rest tid

/-- `LockRequestQueue::Move(old, FirstWaiting())` followed by the
upgrade's mutation of the moved request: the transaction's entry is
re-inserted, as an ungranted exclusive request, just before the first
ungranted request. -/
def moveToFirstWaiting (q : List LockRequest) (tid : Int) : List LockRequest :=
  let rest := eraseReq q tid
  rest.takeWhile (·.granted) ++ ⟨tid, .exclusive, false⟩ :: rest.dropWhile (·.granted)

/-- `LockManager::LockShared` up to the wait loop. -/
def lockShared (st : LMState) (tid : Int) (rid : Nat) : LMOutcome × LMState :=
  let t := st.txns tid
  if t.sharedSet.contains rid || t.exclSet.contains rid then (.alreadyGranted, st)
  else if t.state = .aborted then (.returnedFalse, st)
  else if t.iso = .readUncommitted then
    (.threw .lockSharedOnReadUncommitted, setTxnState st tid .aborted)
  else if t.state = .shrinking then
    (.threw .lockOnShrinking, setTxnState st tid .aborted)
  else
    let q := st.lockTable rid
    let R : LockRequest := ⟨tid, .shared, false⟩
    let r := abortYoungGo R st.txns (q.queue ++ [R])
    (.enqueued,
     { txns := r.2.1
       lockTable := fun g => if g = rid then { q with queue := r.1 } else st.lockTable g })

/-- `LockManager::LockUpgrade` up to the wait loop.  On the
`UPGRADE_CONFLICT` path the exception is thrown with the transaction's
state untouched (unlike the `LOCK_ON_SHRINKING` path, which sets
ABORTED first). -/
def lockUpgrade (st : LMState) (tid : Int) (rid : Nat) : LMOutcome × LMState :=
  let t := st.txns tid
  if t.exclSet.contains rid then (.alreadyGranted, st)
  else if ¬ t.sharedSet.contains rid then (.returnedFalse, st)
  else if t.state = .aborted then (.returnedFalse, st)
  else if t.state = .shrinking then
    (.threw .lockOnShrinking, setTxnState st tid .aborted)
  else
    let q := st.lockTable rid
    if q.upgrading ≠ INVALID_TXN_ID then (.threw .upgradeConflict, st)
    else
      let queue' := moveToFirstWaiting q.queue tid
      let txns1 := fun g => if g = tid then { t with sharedSet := t.sharedSet.erase rid }
                            else st.txns g
      let R : LockRequest := ⟨tid, .exclusive, false⟩
      let r := abortYoungGo R txns1 queue'
      (.enqueued,
       { txns := r.2.1
         lockTable := fun g => if g = rid then { queue := r.1, upgrading := tid }
                               else st.lockTable g })

/-- `LockManager::LockExclusive` up to the wait loop (routing a
shared-holding transaction to `LockUpgrade`). -/
def lockExclusive (st : LMState) (tid : Int) (rid : Nat) : LMOutcome × LMState :=
  let t := st.txns tid
  if t.exclSet.contains rid then (.alreadyGranted, st)
  else if t.sharedSet.contains rid then lockUpgrade st tid rid
  else if t.state = .aborted then (.returnedFalse, st)
  else if t.state = .shrinking then
    (.threw .lockOnShrinking, setTxnState st tid .aborted)
  else
    let q := st.lockTable rid
    let R : LockRequest := ⟨tid, .exclusive, false⟩
    let r := abortYoungGo R st.txns (q.queue ++ [R])
    (.enqueued,
     { txns := r.2.1
       lockTable := fun g => if g = rid then { q with queue := r.1 } else st.lockTable g })

/-- `LockManager::Unlock`: false if the transaction holds no lock on
the rid; under REPEATABLE_READ a GROWING transaction transitions to
SHRINKING; the queue entry is erased, both lock sets give up the rid,
and all waiters are notified. -/
def unlock (st : LMState) (tid : Int) (rid : Nat) : Bool × LMState :=
  let t := st.txns tid
  if ¬ (t.sharedSet.contains rid || t.exclSet.contains rid) then (false, st)
  else
    let st1 :=
      if t.iso = .repeatableRead ∧ t.state = .growing then setTxnState st tid .shrinking
      else st
    let q := st1.lockTable rid
    let t1 := st1.txns tid
    (true,
     { txns := fun g => if g = tid then
         { t1 with sharedSet := t1.sharedSet.erase rid, exclSet := t1.exclSet.erase rid }
         else st1.txns g
       lockTable := fun g => if g = rid then { q with queue := eraseReq q.queue tid }
                             else st1.lockTable g })

/-! Sanity examples for the lock manager. -/

example :
    (abortYoungGo ⟨1, .exclusive, false⟩ (fun _ => ⟨.growing, .repeatableRead, [], []⟩)
      [⟨5, .shared, true⟩, ⟨0, .shared, true⟩, ⟨7, .exclusive, false⟩,
       ⟨1, .exclusive, false⟩]).1 =
    [⟨0, .shared, true⟩, ⟨1, .exclusive, false⟩] := by decide

example :
    ((abortYoungGo ⟨1, .exclusive, false⟩ (fun _ => ⟨.growing, .repeatableRead, [], []⟩)
      [⟨5, .shared, true⟩, ⟨0, .shared, true⟩, ⟨1, .exclusive, false⟩]).2.1 5).state =
    .aborted := by decide

/-- The wound-wait condition of `AbortYoung` as a boolean predicate:
the scanned request belongs to a younger transaction and conflicts. -/
def woundCond (R o : LockRequest) : Bool :=
  decide (R.txnId < o.txnId) && hasConflict R o

theorem woundCond_iff (R o : LockRequest) :
    woundCond R o = true ↔ (R.txnId < o.txnId ∧ hasConflict R o = true) := by
  simp [woundCond]

/-- C2: wound-wait.  For a request `Rreq` of transaction `R.txnId`
sitting in the queue behind the entries `pre` (none of which belongs
to the same transaction), `AbortYoung` removes from `pre` exactly the
conflicting requests of strictly younger transactions, sets exactly
those transactions' states to ABORTED (leaving every other transaction
untouched), keeps the non-conflicting and older requests in place
(and everything from the request on), and notifies the queue's
waiters (`any_killed`) iff at least one request was removed.  This
covers every enqueue site: `LockShared` and `LockExclusive` push the
new request at the back, `LockUpgrade` moves it before the first
waiter, and all three then call `AbortYoung`. -/
theorem c2_wound_wait_aborts_young (R Rreq : LockRequest) (pre post : List LockRequest)
    (txns : Int → Txn)
    (hpre : ∀ o ∈ pre, o.txnId ≠ R.txnId)
    (hR : Rreq.txnId = R.txnId) :
    (abortYoungGo R txns (pre ++ Rreq :: post)).1 =
      pre.filter (fun o => ! woundCond R o) ++ Rreq :: post ∧
    (∀ tid, (abortYoungGo R txns (pre ++ Rreq :: post)).2.1 tid =
      if tid ∈ (pre.filter (woundCond R)).map LockRequest.txnId
      then { txns tid with state := .aborted } else txns tid) ∧
    (abortYoungGo R txns (pre ++ Rreq :: post)).2.2 = pre.any (woundCond R) := by
  induction pre generalizing txns with
  | nil =>
    refine ⟨?_, ?_, ?_⟩
    · simp [abortYoungGo, hR]
    · intro tid
      simp [abortYoungGo, hR]
    · simp [abortYoungGo, hR]
  | cons o pre' ih =>
    have hne : o.txnId ≠ R.txnId := hpre o (List.mem_cons_self o pre')
    have hpre' : ∀ p ∈ pre', p.txnId ≠ R.txnId := fun p hp => hpre p (List.mem_cons_of_mem o hp)
    by_cases hc : R.txnId < o.txnId ∧ hasConflict R o = true
    · have hcb : woundCond R o = true := (woundCond_iff R o).mpr hc
      obtain ⟨ih1, ih2, ih3⟩ :=
        ih (fun g => if g = o.txnId then { txns g with state := .aborted } else txns g) hpre'
      refine ⟨?_, ?_, ?_⟩
      · show (abortYoungGo R txns (o :: (pre' ++ Rreq :: post))).1 = _
        unfold abortYoungGo
        rw [if_neg hne, if_pos hc]
        dsimp only
        rw [ih1]
        simp [List.filter_cons, hcb]
      · intro tid
        show (abortYoungGo R txns (o :: (pre' ++ Rreq :: post))).2.1 tid = _
        unfold abortYoungGo
        rw [if_neg hne, if_pos hc]
        dsimp only
        rw [ih2 tid]
        have hfe : List.filter (woundCond R) (o :: pre') = o :: List.filter (woundCond R) pre' := by
          simp [List.filter_cons, hcb]
        rw [hfe]
        simp only [List.map_cons, List.mem_cons]
        by_cases h2 : tid = o.txnId
        · simp [h2]
        · by_cases h1 :
              tid ∈ (List.filter (woundCond R) pre').map LockRequest.txnId
          · simp [h1, h2]
          · simp [h1, h2]
      · show (abortYoungGo R txns (o :: (pre' ++ Rreq :: post))).2.2 = _
        unfold abortYoungGo
        rw [if_neg hne, if_pos hc]
        simp [hcb]
    · have hcb : woundCond R o = false := by
        rw [← Bool.not_eq_true]
        intro hx
        exact hc ((woundCond_iff R o).mp hx)
      obtain ⟨ih1, ih2, ih3⟩ := ih txns hpre'
      refine ⟨?_, ?_, ?_⟩
      · show (abortYoungGo R txns (o :: (pre' ++ Rreq :: post))).1 = _
        unfold abortYoungGo
        rw [if_neg hne, if_neg hc]
        dsimp only
        rw [ih1]
        simp [List.filter_cons, hcb]
      · intro tid
        show (abortYoungGo R txns (o :: (pre' ++ Rreq :: post))).2.1 tid = _
        unfold abortYoungGo
        rw [if_neg hne, if_neg hc]
        dsimp only
        rw [ih2 tid]
        have hfe : List.filter (woundCond R) (o :: pre') = List.filter (woundCond R) pre' := by
          simp [List.filter_cons, hcb]
        rw [hfe]
      · show (abortYoungGo R txns (o :: (pre' ++ Rreq :: post))).2.2 = _
        unfold abortYoungGo
        rw [if_neg hne, if_neg hc]
        dsimp only
        rw [ih3]
        simp [List.any_cons, hcb]

/-- The all-growing transaction table used by the C2 witness. -/
def allGrowingTxns : Int → Txn := fun _ => ⟨.growing, .repeatableRead, [], []⟩

/-- Witness for C2: request of transaction 1 (exclusive) pushed behind
granted shared requests of transactions 5 and 0 and a waiting
exclusive request of transaction 7: the conflicting younger entries
(5 and 7) are aborted and removed, the older entry (0) stays, and the
waiters are notified. -/
theorem c2_witness :
    (abortYoungGo ⟨1, .exclusive, false⟩ allGrowingTxns
        ([⟨5, .shared, true⟩, ⟨0, .shared, true⟩, ⟨7, .exclusive, false⟩] ++
          ⟨1, .exclusive, false⟩ :: [])).1 =
      [⟨5, .shared, true⟩, ⟨0, .shared, true⟩,
        ⟨7, .exclusive, false⟩].filter (fun o => ! woundCond ⟨1, .exclusive, false⟩ o) ++
        ⟨1, .exclusive, false⟩ :: [] ∧
    ((abortYoungGo ⟨1, .exclusive, false⟩ allGrowingTxns
        ([⟨5, .shared, true⟩, ⟨0, .shared, true⟩, ⟨7, .exclusive, false⟩] ++
          ⟨1, .exclusive, false⟩ :: [])).2.1 5 =
      if 5 ∈ ([⟨5, .shared, true⟩, ⟨0, .shared, true⟩,
          ⟨7, .exclusive, false⟩].filter (woundCond ⟨1, .exclusive, false⟩)).map
          LockRequest.txnId
      then { allGrowingTxns 5 with state := .aborted } else allGrowingTxns 5) ∧
    ((abortYoungGo ⟨1, .exclusive, false⟩ allGrowingTxns
        ([⟨5, .shared, true⟩, ⟨0, .shared, true⟩, ⟨7, .exclusive, false⟩] ++
          ⟨1, .exclusive, false⟩ :: [])).2.2 =
      [⟨5, .shared, true⟩, ⟨0, .shared, true⟩,
        ⟨7, .exclusive, false⟩].any (woundCond ⟨1, .exclusive, false⟩)) :=
  ⟨(c2_wound_wait_aborts_young ⟨1, .exclusive, false⟩ ⟨1, .exclusive, false⟩
      [⟨5, .shared, true⟩, ⟨0, .shared, true⟩, ⟨7, .exclusive, false⟩] []
      allGrowingTxns (by decide) rfl).1,
   (c2_wound_wait_aborts_young ⟨1, .exclusive, false⟩ ⟨1, .exclusive, false⟩
      [⟨5, .shared, true⟩, ⟨0, .shared, true⟩, ⟨7, .exclusive, false⟩] []
      allGrowingTxns (by decide) rfl).2.1 5,
   (c2_wound_wait_aborts_young ⟨1, .exclusive, false⟩ ⟨1, .exclusive, false⟩
      [⟨5, .shared, true⟩, ⟨0, .shared, true⟩, ⟨7, .exclusive, false⟩] []
      allGrowingTxns (by decide) rfl).2.2⟩

/-- Two transactions holding S on rid 5, transaction 1 mid-upgrade
(its entry moved to an ungranted exclusive request, `upgrading_ = 1`):
the input of the C4 counterexample and witness. -/
def c4State : LMState :=
  { txns := fun tid => if tid = 2 then ⟨.growing, .repeatableRead, [5], []⟩
                       else ⟨.growing, .repeatableRead, [], []⟩
    lockTable := fun rid =>
      if rid = 5 then ⟨[⟨2, .shared, true⟩, ⟨1, .exclusive, false⟩], 1⟩
      else ⟨[], INVALID_TXN_ID⟩ }

/-- C4 counterexample: transaction 2 calls `LockUpgrade` on rid 5 while
transaction 1 is the registered upgrader.  The call raises
UPGRADE_CONFLICT, but transaction 2's state stays GROWING: unlike the
LOCK_ON_SHRINKING paths, the throw site does not set the state to
ABORTED (that is left to whoever catches the exception). -/
theorem c4_counterexample_state_not_aborted :
    (lockUpgrade c4State 2 5).1 = .threw .upgradeConflict ∧
    ((lockUpgrade c4State 2 5).2.txns 2).state = .growing := by decide

/-- C4 amended: if a transaction that holds S (not X) on the rid and is
neither aborted nor shrinking calls `LockUpgrade` while the queue
already records another upgrading transaction, the call fails with
UPGRADE_CONFLICT (raised as a transaction-abort exception) and the
entire lock-manager state — in particular the requesting transaction's
state — is left unchanged; marking the transaction ABORTED is left to
the caller's abort handling. -/
theorem c4_amended_upgrade_conflict (st : LMState) (tid : Int) (rid : Nat)
    (h1 : (st.txns tid).exclSet.contains rid = false)
    (h2 : (st.txns tid).sharedSet.contains rid = true)
    (h3 : (st.txns tid).state ≠ .aborted)
    (h4 : (st.txns tid).state ≠ .shrinking)
    (h5 : (st.lockTable rid).upgrading ≠ INVALID_TXN_ID) :
    lockUpgrade st tid rid = (.threw .upgradeConflict, st) := by
  unfold lockUpgrade
  dsimp only
  rw [if_neg (show ¬ ((st.txns tid).exclSet.contains rid = true) by simpa using h1),
    if_neg (not_not_intro h2), if_neg h3, if_neg h4, if_pos h5]

/-- Witness for C4: the concrete upgrade conflict of `c4State`. -/
theorem c4_witness :
    lockUpgrade c4State 2 5 = (.threw .upgradeConflict, c4State) :=
  c4_amended_upgrade_conflict c4State 2 5 (by decide) (by decide) (by decide)
    (by decide) (by decide)

/-- Transaction 1 (REPEATABLE_READ, GROWING) holding S on rids 1 and 2:
the input of the C8 counterexample. -/
def c8State : LMState :=
  { txns := fun tid => if tid = 1 then ⟨.growing, .repeatableRead, [1, 2], []⟩
                       else ⟨.growing, .repeatableRead, [], []⟩
    lockTable := fun rid =>
      if rid = 1 then ⟨[⟨1, .shared, true⟩], INVALID_TXN_ID⟩
      else if rid = 2 then ⟨[⟨1, .shared, true⟩], INVALID_TXN_ID⟩
      else ⟨[], INVALID_TXN_ID⟩ }

/-- C8 counterexample: transaction 1 (REPEATABLE_READ) holds S on rids
1 and 2.  After the successful `Unlock` of rid 1, its state is
SHRINKING — yet the subsequent `LockShared` on rid 2 returns true
immediately (the already-holding early return) instead of aborting the
transaction with LOCK_ON_SHRINKING, and leaves the state SHRINKING,
not ABORTED. -/
theorem c8_counterexample_already_held_regrant :
    (unlock c8State 1 1).1 = true ∧
    ((unlock c8State 1 1).2.txns 1).state = .shrinking ∧
    (lockShared (unlock c8State 1 1).2 1 2).1 = .alreadyGranted ∧
    ((lockShared (unlock c8State 1 1).2 1 2).2.txns 1).state = .shrinking := by decide

/-- C8 amended: under REPEATABLE_READ, a successful `Unlock` of a
GROWING transaction moves it to SHRINKING, and afterwards every
`LockShared`/`LockExclusive` for a rid the transaction does *not*
already hold a lock on aborts it with LOCK_ON_SHRINKING (this includes
`LockExclusive` on a rid held only in shared mode, which routes
through `LockUpgrade`); once the transaction is ABORTED, later lock
calls on unheld rids simply return false.  Calls on rids whose lock
the transaction still holds return true without any state change, so
the claim's "every subsequent call aborts" holds only for unheld
rids. -/
theorem c8_amended_shrinking_aborts (st : LMState) (tid : Int) (rid rid2 : Nat) :
    ((st.txns tid).iso = .repeatableRead → (st.txns tid).state = .growing →
      ((st.txns tid).sharedSet.contains rid || (st.txns tid).exclSet.contains rid) = true →
      (unlock st tid rid).1 = true ∧
      ((unlock st tid rid).2.txns tid).state = .shrinking) ∧
    ((st.txns tid).iso = .repeatableRead → (st.txns tid).state = .shrinking →
      (st.txns tid).sharedSet.contains rid2 = false →
      (st.txns tid).exclSet.contains rid2 = false →
      lockShared st tid rid2 = (.threw .lockOnShrinking, setTxnState st tid .aborted) ∧
      lockExclusive st tid rid2 = (.threw .lockOnShrinking, setTxnState st tid .aborted)) ∧
    ((st.txns tid).state = .shrinking →
      (st.txns tid).sharedSet.contains rid2 = true →
      (st.txns tid).exclSet.contains rid2 = false →
      lockExclusive st tid rid2 = (.threw .lockOnShrinking, setTxnState st tid .aborted)) ∧
    ((st.txns tid).state = .aborted →
      (st.txns tid).sharedSet.contains rid2 = false →
      (st.txns tid).exclSet.contains rid2 = false →
      lockShared st tid rid2 = (.returnedFalse, st) ∧
      lockExclusive st tid rid2 = (.returnedFalse, st)) := by
  refine ⟨?_, ?_, ?_, ?_⟩
  · intro hiso hgrow hheld
    unfold unlock
    dsimp only
    rw [if_neg (not_not_intro hheld), if_pos ⟨hiso, hgrow⟩]
    refine ⟨rfl, ?_⟩
    simp [setTxnState]
  · intro hiso hshr hs2 he2
    constructor
    · unfold lockShared
      dsimp only
      have a1 : rid2 ∉ (st.txns tid).sharedSet := by simpa using hs2
      have a2 : rid2 ∉ (st.txns tid).exclSet := by simpa using he2
      rw [if_neg (show ¬ ((((st.txns tid).sharedSet.contains rid2 ||
            (st.txns tid).exclSet.contains rid2)) = true) by simp [a1, a2]),
        if_neg (show ¬ ((st.txns tid).state = .aborted) by simp [hshr]),
        if_neg (show ¬ ((st.txns tid).iso = .readUncommitted) by simp [hiso]),
        if_pos hshr]
    · unfold lockExclusive
      dsimp only
      rw [if_neg (show ¬ ((st.txns tid).exclSet.contains rid2 = true) by simpa using he2),
        if_neg (show ¬ ((st.txns tid).sharedSet.contains rid2 = true) by simpa using hs2),
        if_neg (show ¬ ((st.txns tid).state = .aborted) by simp [hshr]),
        if_pos hshr]
  · intro hshr hs2 he2
    unfold lockExclusive
    dsimp only
    rw [if_neg (show ¬ ((st.txns tid).exclSet.contains rid2 = true) by simpa using he2),
      if_pos hs2]
    unfold lockUpgrade
    dsimp only
    rw [if_neg (show ¬ ((st.txns tid).exclSet.contains rid2 = true) by simpa using he2),
      if_neg (not_not_intro hs2),
      if_neg (show ¬ ((st.txns tid).state = .aborted) by simp [hshr]),
      if_pos hshr]
  · intro habort hs2 he2
    constructor
    · unfold lockShared
      dsimp only
      have a1 : rid2 ∉ (st.txns tid).sharedSet := by simpa using hs2
      have a2 : rid2 ∉ (st.txns tid).exclSet := by simpa using he2
      rw [if_neg (show ¬ ((((st.txns tid).sharedSet.contains rid2 ||
            (st.txns tid).exclSet.contains rid2)) = true) by simp [a1, a2]),
        if_pos habort]
    · unfold lockExclusive
      dsimp only
      rw [if_neg (show ¬ ((st.txns tid).exclSet.contains rid2 = true) by simpa using he2),
        if_neg (show ¬ ((st.txns tid).sharedSet.contains rid2 = true) by simpa using hs2),
        if_pos habort]

/-- Transaction 1 SHRINKING and holding S on rid 2; transaction 2
ABORTED: inputs of the C8 witness. -/
def c8ShrState : LMState :=
  { txns := fun tid => if tid = 1 then ⟨.shrinking, .repeatableRead, [2], []⟩
                       else if tid = 2 then ⟨.aborted, .repeatableRead, [], []⟩
                       else ⟨.growing, .repeatableRead, [], []⟩
    lockTable := fun rid =>
      if rid = 2 then ⟨[⟨1, .shared, true⟩], INVALID_TXN_ID⟩
      else ⟨[], INVALID_TXN_ID⟩ }

/-- Witness for C8: on concrete states — the RR unlock of `c8State`
transitions to SHRINKING; the shrinking transaction 1 of `c8ShrState`
gets LOCK_ON_SHRINKING (and is aborted) for the unheld rid 9 and for
the exclusive upgrade of the shared-held rid 2; the aborted
transaction 2 just gets `false`. -/
theorem c8_witness :
    ((unlock c8State 1 1).1 = true ∧
      ((unlock c8State 1 1).2.txns 1).state = .shrinking) ∧
    (lockShared c8ShrState 1 9 = (.threw .lockOnShrinking, setTxnState c8ShrState 1 .aborted) ∧
     lockExclusive c8ShrState 1 9 =
       (.threw .lockOnShrinking, setTxnState c8ShrState 1 .aborted)) ∧
    (lockExclusive c8ShrState 1 2 =
      (.threw .lockOnShrinking, setTxnState c8ShrState 1 .aborted)) ∧
    (lockShared c8ShrState 2 9 = (.returnedFalse, c8ShrState) ∧
     lockExclusive c8ShrState 2 9 = (.returnedFalse, c8ShrState)) :=
  ⟨(c8_amended_shrinking_aborts c8State 1 1 9).1 (by decide) (by decide) (by decide),
   (c8_amended_shrinking_aborts c8ShrState 1 1 9).2.1 (by decide) (by decide)
     (by decide) (by decide),
   (c8_amended_shrinking_aborts c8ShrState 1 1 2).2.2.1 (by decide) (by decide) (by decide),
   (c8_amended_shrinking_aborts c8ShrState 2 2 9).2.2.2 (by decide) (by decide) (by decide)⟩


end BusTub
